import Mathlib

/-!
# logrotate: a shallow embedding of `handler.go`

The development follows the source file `handler.go` of `mkhadilk/logrotate`.

* Go values: a `[]byte` is an optional list of bytes (`none` is the nil slice), the
  buffered channel `internal` is a FIFO list with a capacity and a closed flag, the mutex
  `locker` is a flag that is `true` while the lock is held.
* The file system is a map from paths to file contents; an `*os.File` is the path it was
  opened at plus a closed flag.  The worker closes its handle before it renames the file,
  so the path identifies the open file for as long as one worker is alive.
* The operating system may fail any call: the result of each fallible call made by one
  piece of code is supplied by an `Env` value.
* Operations are executed one at a time (an interleaving semantics): a facade call or one
  iteration of the worker loop is one step.  A call that can never complete in the state it
  is issued in (a lock that is held, a full queue) yields `Res.blocks`, a Go panic yields
  `Res.panics`.
-/

namespace Logrotate

/-- One octet of a Go byte slice. -/
abbrev Byte := UInt8

/-- A Go value of type `[]byte`: `none` is the nil slice, `some l` a non-nil slice. -/
abbrev Slice := Option (List Byte)

/-- The buffered channel `chan []byte`: pending elements in FIFO order (head is the oldest),
the capacity given to `make`, and whether `close` has been called. -/
structure Chan where
  buf : List Slice
  cap : Nat
  closed : Bool
deriving DecidableEq

/-- The struct `logfile` (handler.go lines 23-28); `size` is a `uint64`. -/
structure logfile where
  filename : String
  index : Int
  size : Nat
deriving DecidableEq

/-- The struct `Rotator` (handler.go lines 34-42).  `locker` is `true` while the mutex is
held.  `lfile` is allocated by `NewRotator` and never reassigned, so it is never nil. -/
structure Rotator where
  internal : Chan
  limitbytes : Nat
  fileprefix : String
  maxlogfiles : Int
  locker : Bool
  running : Bool
  lfile : logfile
deriving DecidableEq

/-- Outcome of a call: it returns, it never returns (the caller stays parked in the state
given), or it panics. -/
inductive Res (α : Type) where
  | ret : α → Res α
  | blocks : α → Res α
  | panics : Res α
deriving DecidableEq

/-- The element-wise copy of `Write` (handler.go lines 47-50): a zeroed slice of the same length
is allocated and filled index by index. -/
def copyBytes (Bytes : List Byte) : List Byte :=
  (List.range Bytes.length).foldl (fun bytes i => bytes.set i (Bytes.getD i 0))
    (List.replicate Bytes.length 0)

/-- The message of the error returned by `Write` on time-out. -/
def writeTimeout : String := "Can not write to channel..."

/-- The method `Rotator.Write` (handler.go lines 45-59), with no consumer receiving during the
call: the send case of the `select` is taken when the buffer has room, it panics when the
channel is closed, and otherwise the 10 second timer fires.  The result is the rotator
(whose channel may have grown), the count `n` and the optional error. -/
def Write (r : Rotator) (Bytes : Slice) : Res (Rotator × Nat × Option String) :=
  match Bytes with
  | some Bs =>
    let bytes := copyBytes Bs
    if r.internal.closed then Res.panics
    else if r.internal.buf.length < r.internal.cap then
      Res.ret ({ r with internal := { r.internal with buf := r.internal.buf ++ [some bytes] } },
        bytes.length, none)
    else Res.ret (r, 0, some writeTimeout)
  | none => Res.ret (r, 0, none)

/-- The constructor `NewRotator` (handler.go lines 61-73).  `ParseBytes` stands for the external
function `humanize.ParseBytes`, which returns a value and an optional error. -/
def NewRotator (ParseBytes : String → Nat × Option String) : Rotator :=
  { internal := { buf := [], cap := 10, closed := false }
    limitbytes := (ParseBytes "100 mib").1
    fileprefix := "logfile"
    maxlogfiles := 5
    locker := false
    running := false
    lfile := { filename := "logfile", index := 0, size := 0 } }

/-- The method `Rotator.Set` (handler.go lines 175-188).  The value returned by the parser is
stored in `limitbytes` before the error is examined. -/
def Set (ParseBytes : String → Nat × Option String) (r : Rotator)
    (logfileSizeLimitbytes : String) (numberoflogfiles : Int) ( pathprefix : String) :
    Res (Rotator × Option String) :=
  if r.locker then Res.blocks (r, none)
  else
    let parsed := ParseBytes logfileSizeLimitbytes
    let r1 := { r with limitbytes := parsed.1 }
    match parsed.2 with
    | some err => Res.ret (r1, some err)
    | none =>
      Res.ret ({ r1 with
        fileprefix := pathprefix
        lfile := { r1.lfile with filename := pathprefix }
        maxlogfiles := numberoflogfiles }, none)

/-! ## The operating system -/

/-- File system: the content of the file at each path, `none` where there is no file. -/
abbrev FS := String → Option (List Byte)

/-- The file system with the entry at `name` replaced. -/
def fsSet (fs : FS) (name : String) (c : Option (List Byte)) : FS :=
  fun q => if q = name then c else fs q

/-- Results of the fallible system calls made by one piece of code.  `writeErr = none` means
`w.Write` succeeds; `writeErr = some k` means it fails after `k` bytes.  The results of
`Sync` and `Close` are discarded by the source. -/
structure Env where
  writeErr : Option Nat
  syncOk : Bool
  closeOk : Bool
  renameOk : Bool
  openOk : Bool
  statOk : Bool
deriving DecidableEq

/-- The environment in which every call succeeds. -/
def Env.ok : Env :=
  { writeErr := none, syncOk := true, closeOk := true, renameOk := true, openOk := true,
    statOk := true }

/-- An `*os.File`: the path it was opened at and whether it has been closed. -/
structure File where
  name : String
  closed : Bool
deriving DecidableEq

/-- The call `os.OpenFile(name, O_RDWR|O_CREATE|O_APPEND, 0644)`: an existing file is kept,
a missing one is created empty. -/
def OpenFile (e : Env) (fs : FS) (name : String) : FS × Option File :=
  if e.openOk then
    (match fs name with
      | some _ => fs
      | none => fsSet fs name (some []),
     some { name := name, closed := false })
  else (fs, none)

/-- The size reported by `w.Stat()`. -/
def fileSize (fs : FS) (w : File) : Nat :=
  match fs w.name with
  | some c => c.length
  | none => 0

/-- The call `w.Write(ba)` on a handle opened for append: the bytes written and whether the
error is nil.  A closed or nil handle writes nothing and fails. -/
def fileWrite (e : Env) (fs : FS) (w : Option File) (ba : List Byte) : FS × Nat × Bool :=
  match w with
  | none => (fs, 0, false)
  | some f =>
    if f.closed then (fs, 0, false)
    else
      match e.writeErr, fs f.name with
      | none, some c => (fsSet fs f.name (some (c ++ ba)), ba.length, true)
      | none, none => (fs, ba.length, true)
      | some k, some c => (fsSet fs f.name (some (c ++ ba.take k)), min k ba.length, false)
      | some k, none => (fs, min k ba.length, false)

/-- The call `w.Close()` (also after `w.Sync()`): the handle is closed whatever is returned. -/
def closeFile (w : Option File) : Option File :=
  w.map (fun f => { f with closed := true })

/-- The call `os.Rename(oldpath, newpath)`: the new file system and whether the error is nil.
On failure nothing is renamed. -/
def Rename (e : Env) (fs : FS) (oldpath newpath : String) : FS × Bool :=
  match fs oldpath with
  | none => (fs, false)
  | some c =>
    if e.renameOk then (fsSet (fsSet fs oldpath none) newpath (some c), true)
    else (fs, false)

/-- The function `strconv.Itoa`. -/
def Itoa (i : Int) : String := toString i

/-- Two's complement wrap-around of a Go `int` (64 bits). -/
def wrapInt64 (x : Int) : Int := (x + 2 ^ 63) % 2 ^ 64 - 2 ^ 63

/-! ## The worker -/

/-- The method `Rotator.resetFile` (handler.go lines 81-92): the rotator, the file system, the
handle `w` and whether the returned error is nil.  The error of `Stat` is the one
returned, since `err` is the named result. -/
def resetFile (e : Env) (r : Rotator) (fs : FS) : Rotator × FS × Option File × Bool :=
  let r0 := { r with lfile := { r.lfile with size := 0 } }
  match OpenFile e fs r0.lfile.filename with
  | (fs1, none) => (r0, fs1, none, false)
  | (fs1, some w) =>
    if e.statOk then
      ({ r0 with lfile := { r0.lfile with size := fileSize fs1 w % 2 ^ 64 } }, fs1, some w, true)
    else (r0, fs1, some w, false)

/-- Where the worker goroutine is: in its loop, returned, or parked for ever in `r.Lock()`. -/
inductive Status where
  | alive
  | exited
  | stuck
deriving DecidableEq

/-- The worker goroutine of `Start`: its local handle `w` and its status. -/
structure Worker where
  w : Option File
  status : Status
deriving DecidableEq

/-- The rotator, the file system and one worker. -/
structure State where
  r : Rotator
  fs : FS
  wk : Worker

/-- The receive `ba, ok := <-r.internal`: `none` when the receive has to wait. -/
def recv (c : Chan) : Option (Chan × Slice × Bool) :=
  match c.buf with
  | ba :: rest => some ({ c with buf := rest }, ba, true)
  | [] => if c.closed then some (c, none, false) else none

/-- The index update of a rotation (handler.go lines 134-138). -/
def advanceIndex (index maxlogfiles : Int) : Int :=
  if index < wrapInt64 (maxlogfiles - 1) then wrapInt64 (index + 1) else 0

/-- The second argument of `os.Rename` in a rotation (handler.go line 132). -/
def renameTarget (r : Rotator) : String :=
  r.fileprefix ++ "." ++ Itoa r.lfile.index

/-- The rotation branch of the worker (handler.go lines 129-146), run with the lock held.
A worker whose status is `exited` afterwards has returned from inside the branch. -/
def rotate (e : Env) (s : State) : State :=
  let wk := { s.wk with w := closeFile s.wk.w }
  let renamed := Rename e s.fs s.r.lfile.filename (renameTarget s.r)
  let r1 := { s.r with
    lfile := { s.r.lfile with index := advanceIndex s.r.lfile.index s.r.maxlogfiles } }
  if renamed.2 then
    match resetFile e r1 renamed.1 with
    | (r2, fs2, w, true) => { r := r2, fs := fs2, wk := { wk with w := w } }
    | (r2, fs2, w, false) => { r := r2, fs := fs2, wk := { w := w, status := Status.exited } }
  else { r := r1, fs := renamed.1, wk := wk }

/-- The write of a received record (handler.go lines 116-123): the bytes go to the handle and,
when the write succeeds, the count is added to the `uint64` byte counter. -/
def writeRecord (e : Env) (s : State) (ba : List Byte) : State :=
  let written := fileWrite e s.fs s.wk.w ba
  { s with
    fs := written.1
    r :=
      if written.2.2 then
        { s.r with lfile := { s.r.lfile with size := (s.r.lfile.size + written.2.1) % 2 ^ 64 } }
      else s.r }

/-- The section of the loop between `r.Lock()` and `r.UnLock()` (handler.go lines 126-148).  A
worker that finds the lock held for ever is stuck; a worker that returns from inside the
rotation branch does not reach `r.UnLock()`. -/
def checkRotate (e : Env) (s : State) : State :=
  if s.r.locker then { s with wk := { s.wk with status := Status.stuck } }
  else
    let s1 := { s with r := { s.r with locker := true } }
    if s1.r.lfile.size > s1.r.limitbytes then
      let s2 := rotate e s1
      match s2.wk.status with
      | Status.exited => s2
      | _ => { s2 with r := { s2.r with locker := false } }
    else { s1 with r := { s1.r with locker := false } }

/-- One iteration of the worker loop (handler.go lines 108-149).  An iteration that has to
wait for a record leaves the state as it is. -/
def iteration (e : Env) (s : State) : State :=
  match s.wk.status with
  | Status.alive =>
    match recv s.r.internal with
    | none => s
    | some (c, some ba, true) =>
      checkRotate e (writeRecord e { s with r := { s.r with internal := c } } ba)
    | some (c, _, _) =>
      { r := { s.r with internal := c }, fs := s.fs,
        wk := { w := closeFile s.wk.w, status := Status.exited } }
  | _ => s

/-! ## Life cycle -/

/-- The method `Rotator.Start` (handler.go lines 94-156).  The start of the goroutine, up to its
readiness signal, is part of the call.  When the file cannot be opened the goroutine
returns and `Start` waits for ever with the lock held. -/
def Start (e : Env) (r : Rotator) (fs : FS) : Res (Rotator × FS × Option Worker) :=
  if r.locker then Res.blocks (r, fs, none)
  else if r.running then Res.ret (r, fs, none)
  else
    match resetFile e { r with locker := true } fs with
    | (r1, fs1, w, true) =>
      Res.ret ({ r1 with running := true, locker := false }, fs1,
        some { w := w, status := Status.alive })
    | (r1, fs1, w, false) => Res.blocks (r1, fs1, some { w := w, status := Status.exited })

/-- The method `Rotator.Stop` (handler.go lines 158-165): the flag is cleared under the lock,
then the nil record is sent.  The send waits while the buffer is full. -/
def Stop (r : Rotator) : Res Rotator :=
  if r.locker then Res.blocks r
  else
    let r1 := { r with running := false }
    if r1.internal.closed then Res.panics
    else if r1.internal.buf.length < r1.internal.cap then
      Res.ret { r1 with internal := { r1.internal with buf := r1.internal.buf ++ [none] } }
    else Res.blocks r1

/-- The method `Rotator.Close` (handler.go lines 167-173). -/
def Close (r : Rotator) : Res Rotator :=
  if r.locker then Res.blocks r
  else if r.internal.closed then Res.panics
  else Res.ret { r with internal := { r.internal with closed := true }, running := false }

/-! ## Runs -/

/-- The worker state after the rotation branch has run once for each environment of `es`. -/
def rotations (es : List Env) (s : State) : State :=
  es.foldl (fun t e => rotate e t) s

/-- Successive calls of `Write` by a producer while no worker receives: the final rotator and
the pair `(n, err)` returned by each call, in order; `none` when a call panics. -/
def writeAll : Rotator → List (List Byte) → Option (Rotator × List (Nat × Option String))
  | r, [] => some (r, [])
  | r, b :: bs =>
    match Write r (some b) with
    | Res.ret (r1, n, err) => (writeAll r1 bs).map (fun x => (x.1, (n, err) :: x.2))
    | _ => none

/-- A parser that agrees with `humanize.ParseBytes` on the size strings used by the tests of
the repository and rejects every other string.  It only serves to instantiate theorems at
concrete inputs. -/
def sampleParse (s : String) : Nat × Option String :=
  if s = "100 mib" then (104857600, none)
  else if s = "100 KB" then (100000, none)
  else if s = "1 mib" then (1048576, none)
  else if s = "1000" then (1000, none)
  else if s = "10" then (10, none)
  else (0, some "unhandled size name")

/-- The bytes of an ASCII string. -/
def bytesOf (s : String) : List Byte :=
  s.toList.map (fun c => c.toNat.toUInt8)

/-- A rotator as built by `NewRotator` whose queue holds ten records. -/
def fullRotator : Rotator :=
  { NewRotator sampleParse with
    internal :=
      { buf := List.replicate 10 (some (bytesOf "some data")), cap := 10, closed := false } }

/-- The value returned by a call, if it returns. -/
def Res.value? {α : Type} : Res α → Option α
  | Res.ret a => some a
  | _ => none

/-- The rotator of the tests after `Set("10", 2, "logfile")`. -/
def sampleRotator : Rotator :=
  { NewRotator sampleParse with limitbytes := 10, maxlogfiles := 2 }

/-- The file system without any file. -/
def emptyFS : FS := fun _ => none

/-- The environment in which `os.Rename` fails and every other call succeeds. -/
def renameFails : Env := { Env.ok with renameOk := false }

/-- The environment in which `os.OpenFile` fails and every other call succeeds. -/
def openFails : Env := { Env.ok with openOk := false }

/-- A running worker of `sampleRotator` whose active file holds the 9 bytes of `som1om789`
and whose queue holds the record `1om123`. -/
def beforeCrossing : State :=
  { r :=
      { sampleRotator with
        running := true
        internal := { buf := [some (bytesOf "1om123")], cap := 10, closed := false }
        lfile := { filename := "logfile", index := 0, size := 9 } }
    fs := fsSet emptyFS "logfile" (some (bytesOf "som1om789"))
    wk := { w := some { name := "logfile", closed := false }, status := Status.alive } }

/-- The state of `beforeCrossing` once the record is written: 15 bytes against a limit of 10,
at the point where the worker takes the lock. -/
def overLimit : State :=
  { r :=
      { sampleRotator with
        running := true
        lfile := { filename := "logfile", index := 0, size := 15 } }
    fs := fsSet emptyFS "logfile" (some (bytesOf "som1om7891om123"))
    wk := { w := some { name := "logfile", closed := false }, status := Status.alive } }

/-- The run `Start; Stop; worker; Stop; Start; worker` with every system call succeeding: the
final state with the second worker, and the first worker. -/
def stopTwiceThenStart (r : Rotator) (fs : FS) : Option (State × Worker) := do
  let started ← (Start Env.ok r fs).value?
  let w1 ← started.2.2
  let r2 ← (Stop started.1).value?
  let s3 := iteration Env.ok { r := r2, fs := started.2.1, wk := w1 }
  let r4 ← (Stop s3.r).value?
  let restarted ← (Start Env.ok r4 s3.fs).value?
  let w2 ← restarted.2.2
  pure (iteration Env.ok { r := restarted.1, fs := restarted.2.1, wk := w2 }, s3.wk)

/-- One move of a run with a single worker: a producer calls `Write` with a non-nil record, or
the worker executes one iteration of its loop. -/
inductive Act where
  | write (b : List Byte)
  | step
deriving DecidableEq

/-- The records that the producers try to write in a schedule. -/
def writesOf : List Act → List (List Byte)
  | [] => []
  | Act.write b :: acts => b :: writesOf acts
  | Act.step :: acts => writesOf acts

/-- Execution of a schedule.  The second component collects, in order, the records for which
`Write` returned a nil error; a `Write` that returns an error leaves the record out.  The
result is `none` when a call panics. -/
def exec (e : Env) : List Act → State × List (List Byte) → Option (State × List (List Byte))
  | [], x => some x
  | Act.write b :: acts, x =>
    match Write x.1.r (some b) with
    | Res.ret (r, _, none) => exec e acts ({ x.1 with r := r }, x.2 ++ [b])
    | Res.ret (r, _, some _) => exec e acts ({ x.1 with r := r }, x.2)
    | _ => none
  | Act.step :: acts, x => exec e acts (iteration e x.1, x.2)

/-- The worker runs one iteration for each element the queue holds. -/
def drain (e : Env) (s : State) : State :=
  Nat.iterate (iteration e) s.r.internal.buf.length s

/-- The call `Start` with every system call succeeding, followed by a schedule. -/
def startThen (r : Rotator) (fs : FS) (acts : List Act) : Option (State × List (List Byte)) :=
  match Start Env.ok r fs with
  | Res.ret (r1, fs1, some w) => exec Env.ok acts ({ r := r1, fs := fs1, wk := w }, [])
  | _ => none

/-- The rotator `c` with the running flag cleared. -/
def halted (c : Rotator) : Rotator := { c with running := false }

/-- The rotator `c` with the running flag set. -/
def resumed (c : Rotator) : Rotator := { c with running := true }

/-- The rotator `r` once it runs, with rotation index `i`. -/
def started (r : Rotator) (i : Int) : Rotator :=
  { r with running := true, lfile := { r.lfile with index := i } }

/-- Following the spec (a rotation takes place after a record exactly when the byte count of
the active file is then greater than the limit `L`): the records held by the active file
once `recs` have been processed in order, starting from an empty file. -/
def pending (L : Nat) (recs : List (List Byte)) : List (List Byte) :=
  recs.foldl (fun cur b => if (cur ++ [b]).flatten.length > L then [] else cur ++ [b]) []

/-- The run of the restart scenario, every system call succeeding: `Start`, a schedule, the
worker drains the queue, `Stop`, the worker receives the nil record; then a schedule while
no worker runs; then `Start`, a schedule, drain, `Stop` and the last iteration.  The result
is the final state and the records accepted in each of the three phases. -/
def restartRun (r : Rotator) (fs : FS) (acts1 mid acts2 : List Act) :
    Option (State × List (List Byte) × List (List Byte) × List (List Byte)) := do
  let p1 ← startThen r fs acts1
  let s2 := drain Env.ok p1.1
  let r3 ← (Stop s2.r).value?
  let s3 := iteration Env.ok { s2 with r := r3 }
  let p4 ← exec Env.ok mid (s3, [])
  let p5 ← startThen p4.1.r p4.1.fs acts2
  let s6 := drain Env.ok p5.1
  let r7 ← (Stop s6.r).value?
  pure (iteration Env.ok { s6 with r := r7 }, p1.2, p4.2, p5.2)

/-- The state in which the rotator has the configuration of `c`, the queue holds `q`, the
active file `c.lfile.filename` holds `cur` and the byte counter agrees with it, the other
files are those of `fs`, and the worker, in status `st`, has a handle on the active file. -/
def track (c : Rotator) (fs : FS) (cur : List Byte) (q : List Slice) (st : Status)
    (closed : Bool) : State :=
  { r := { c with
      internal := { c.internal with buf := q }
      lfile := { c.lfile with size := cur.length } }
    fs := fsSet fs c.lfile.filename (some cur)
    wk := { w := some { name := c.lfile.filename, closed := closed }, status := st } }

/-- The records of the test `TestStartRotateOnce`. -/
def rotateOnceRecords : List (List Byte) :=
  [bytesOf "som", bytesOf "1om789", bytesOf "1om123", bytesOf "2om123"]

/-- The rotator of the test `TestRestart` after `Set("1000", 2, "logfilerestart")`. -/
def restartRotator : Rotator :=
  { NewRotator sampleParse with
    limitbytes := 1000
    maxlogfiles := 2
    fileprefix := "logfilerestart"
    lfile := { filename := "logfilerestart", index := 0, size := 0 } }

/-- The schedule in which the four records of `TestStartRotateOnce` are written back to back
and the worker then runs two iterations: two records are processed, two are queued. -/
def backToBack : List Act :=
  [Act.write (bytesOf "som"), Act.write (bytesOf "1om789"), Act.write (bytesOf "1om123"),
    Act.write (bytesOf "2om123"), Act.step, Act.step]

/-! ## Lemmas on the copy and on `Write` -/

theorem copyBytes_fold (b : List Byte) (k : Nat) (hk : k ≤ b.length) :
    (List.range k).foldl (fun bytes i => bytes.set i (b.getD i 0))
      (List.replicate b.length 0) = b.take k ++ List.replicate (b.length - k) 0 := by
  induction k with
  | zero => simp
  | succ k ih =>
    rw [List.range_succ, List.foldl_append, ih (by omega)]
    simp only [List.foldl_cons, List.foldl_nil]
    apply List.ext_getElem?
    intro i
    simp only [List.getElem?_set, List.getElem?_append, List.getElem?_take,
      List.getElem?_replicate, List.length_append, List.length_take, List.length_replicate]
    have hmin : min k b.length = k := by omega
    have hmin1 : min (k + 1) b.length = k + 1 := by omega
    simp only [hmin, hmin1]
    by_cases h1 : k = i
    · subst h1
      simp [List.getD_eq_getElem?_getD, List.getElem?_eq_getElem (show k < b.length by omega)]
      omega
    · by_cases h2 : i < k
      · simp [h1, h2, show i < k + 1 by omega]
      · simp [h1, h2, show ¬ i < k + 1 by omega]
        by_cases h3 : i - k < b.length - k
        · simp [h3, show i - (k + 1) < b.length - (k + 1) by omega]
        · simp [h3, show ¬ i - (k + 1) < b.length - (k + 1) by omega]

theorem copyBytes_eq (b : List Byte) : copyBytes b = b := by
  unfold copyBytes
  rw [copyBytes_fold b b.length (Nat.le_refl _)]
  simp

theorem Write_some (r : Rotator) (b : List Byte) :
    Write r (some b) =
      if r.internal.closed then Res.panics
      else if r.internal.buf.length < r.internal.cap then
        Res.ret ({ r with internal := { r.internal with buf := r.internal.buf ++ [some b] } },
          b.length, none)
      else Res.ret (r, 0, some writeTimeout) := by
  simp only [Write, copyBytes_eq]

theorem writeAll_room (bs : List (List Byte)) (r : Rotator) (hopen : r.internal.closed = false)
    (hroom : r.internal.buf.length + bs.length ≤ r.internal.cap) :
    writeAll r bs =
      some ({ r with internal := { r.internal with buf := r.internal.buf ++ bs.map some } },
        bs.map (fun b => (b.length, none))) := by
  induction bs generalizing r with
  | nil => simp [writeAll]
  | cons b bs ih =>
    have hlt : r.internal.buf.length < r.internal.cap := by
      simp only [List.length_cons] at hroom
      omega
    simp only [writeAll, Write_some, hopen, hlt, if_true, Bool.false_eq_true, if_false]
    rw [ih]
    · simp
    · simp [hopen]
    · simp only [List.length_append, List.length_cons, List.length_nil] at hroom ⊢
      omega

theorem writeAll_cons (r : Rotator) (b : List Byte) (bs : List (List Byte)) :
    writeAll r (b :: bs) =
      match Write r (some b) with
      | Res.ret (r1, n, err) => (writeAll r1 bs).map (fun x => (x.1, (n, err) :: x.2))
      | _ => none := rfl

theorem writeAll_append (bs cs : List (List Byte)) (r : Rotator) :
    writeAll r (bs ++ cs) =
      match writeAll r bs with
      | some (r1, out) => (writeAll r1 cs).map (fun x => (x.1, out ++ x.2))
      | none => none := by
  induction bs generalizing r with
  | nil => cases h : writeAll r cs <;> simp [writeAll, h]
  | cons b bs ih =>
    rw [List.cons_append, writeAll_cons, writeAll_cons]
    cases hw : Write r (some b) with
    | ret x =>
      obtain ⟨r1, n, err⟩ := x
      simp only []
      rw [ih r1]
      cases h1 : writeAll r1 bs with
      | none => simp
      | some y =>
        obtain ⟨r2, out⟩ := y
        simp only [Option.map_map]
        rfl
    | blocks x => simp
    | panics => simp

/-! ## Theorems on `Write` and `Set` -/

/-- C1: on a rotator whose queue has the capacity 10 given by `NewRotator`, is open and holds
fewer than 10 records, `Write` of a non-nil record `b` returns `(len b, nil)`; the queue
afterwards is the old queue followed by one record equal to `b`, and nothing else of the
rotator changes. -/
theorem Write_accepts (r : Rotator) (b : List Byte) (hb : b ≠ [])
    (hcap : r.internal.cap = 10) (hopen : r.internal.closed = false)
    (hlen : r.internal.buf.length < 10) :
    Write r (some b) =
      Res.ret ({ r with internal := { r.internal with buf := r.internal.buf ++ [some b] } },
        b.length, none) ∧ 0 < b.length := by
  refine ⟨?_, List.length_pos.mpr hb⟩
  rw [Write_some]
  simp [hopen, hcap, hlen]

/-- A fresh rotator accepts the record `some data` of the test `TestWrite`. -/
theorem Write_accepts_witness :
    (bytesOf "some data" ≠ [] ∧ (NewRotator sampleParse).internal.cap = 10 ∧
      (NewRotator sampleParse).internal.closed = false ∧
      (NewRotator sampleParse).internal.buf.length < 10) ∧
    (Write (NewRotator sampleParse) (some (bytesOf "some data")) =
      Res.ret ({ NewRotator sampleParse with
          internal := { (NewRotator sampleParse).internal with
            buf := (NewRotator sampleParse).internal.buf ++ [some (bytesOf "some data")] } },
        (bytesOf "some data").length, none) ∧ 0 < (bytesOf "some data").length) :=
  ⟨by decide, Write_accepts (NewRotator sampleParse) (bytesOf "some data") (by decide)
    (by decide) (by decide) (by decide)⟩

/-- C2: when the queue made by `NewRotator` (capacity 10, open) holds 10 records and no
consumer receives, `Write` of a non-nil record returns count 0 and an error and leaves the
rotator, queue included, as it was; in particular ten writes on a fresh rotator are all
accepted and the eleventh fails. -/
theorem Write_saturated (P : String → Nat × Option String) (r : Rotator) (b : List Byte)
    (bs : List (List Byte))
    (hcap : r.internal.cap = (NewRotator P).internal.cap)
    (hopen : r.internal.closed = (NewRotator P).internal.closed)
    (hfull : r.internal.buf.length = 10) (hbs : bs.length = 10) :
    Write r (some b) = Res.ret (r, 0, some writeTimeout) ∧
    writeAll (NewRotator P) (bs ++ [b]) =
      some ({ NewRotator P with
          internal := { (NewRotator P).internal with buf := bs.map some } },
        bs.map (fun x => (x.length, none)) ++ [(0, some writeTimeout)]) := by
  constructor
  · rw [Write_some]
    have hc : r.internal.cap = 10 := hcap
    have ho : r.internal.closed = false := hopen
    simp [hc, ho, hfull]
  · rw [writeAll_append, writeAll_room bs (NewRotator P) rfl (by simp [NewRotator, hbs])]
    simp [writeAll, Write_some, NewRotator, hbs]

/-- A rotator holding ten records refuses the record `some data`, as in `TestWriteError`. -/
theorem Write_saturated_witness :
    (fullRotator.internal.cap = (NewRotator sampleParse).internal.cap ∧
      fullRotator.internal.closed = (NewRotator sampleParse).internal.closed ∧
      fullRotator.internal.buf.length = 10 ∧
      (List.replicate 10 (bytesOf "some data")).length = 10) ∧
    (Write fullRotator (some (bytesOf "some data")) =
      Res.ret (fullRotator, 0, some writeTimeout) ∧
     writeAll (NewRotator sampleParse)
        (List.replicate 10 (bytesOf "some data") ++ [bytesOf "some data"]) =
      some ({ NewRotator sampleParse with
          internal := { (NewRotator sampleParse).internal with
            buf := (List.replicate 10 (bytesOf "some data")).map some } },
        (List.replicate 10 (bytesOf "some data")).map (fun x => (x.length, none)) ++
          [(0, some writeTimeout)])) :=
  ⟨by decide, Write_saturated sampleParse fullRotator (bytesOf "some data")
    (List.replicate 10 (bytesOf "some data")) (by decide) (by decide) (by decide)
    (by decide)⟩

/-- C3 (counterexample): on a fresh rotator `Write` of a non-nil slice of length 0 does not leave
the queue as it was: the call returns `(0, nil)` and the queue holds one more record. -/
theorem Write_empty_slice_enqueued :
    (¬ ∃ r1, Write (NewRotator sampleParse) (some []) = Res.ret (r1, 0, none) ∧
        r1.internal.buf = (NewRotator sampleParse).internal.buf) ∧
    ∃ r1, Write (NewRotator sampleParse) (some []) = Res.ret (r1, 0, none) ∧
        r1.internal.buf = [some []] := by
  have h : Write (NewRotator sampleParse) (some []) =
      Res.ret ({ NewRotator sampleParse with
        internal := { buf := [some []], cap := 10, closed := false } }, 0, none) := by
    decide
  constructor
  · rintro ⟨r1, h1, h2⟩
    rw [h] at h1
    injection h1 with h1
    injection h1 with h1 _
    subst h1
    simp [NewRotator] at h2
  · exact ⟨_, h, rfl⟩

/-- C3 (amended): `Write` of the nil slice returns `(0, nil)` and leaves the rotator, queue
included, as it was, whatever the state of the queue.  A non-nil slice of length 0 is
treated as a record: on an open queue with room it is appended and `(0, nil)` is returned,
on an open full queue with no consumer `(0, error)` is returned and nothing changes. -/
theorem Write_nil_or_empty (r : Rotator) :
    Write r none = Res.ret (r, 0, none) ∧
    Write r (some []) =
      if r.internal.closed then Res.panics
      else if r.internal.buf.length < r.internal.cap then
        Res.ret ({ r with internal := { r.internal with buf := r.internal.buf ++ [some []] } },
          0, none)
      else Res.ret (r, 0, some writeTimeout) := by
  constructor
  · rfl
  · rw [Write_some]
    rfl

/-- C4: with the lock free, `Set` returns, and it returns an error exactly when the parser
reports one.  On success `limitbytes` is the parsed value and the prefix, the file count
and the tracked file name are the arguments; on failure the error of the parser is returned
and these three are unchanged.  The index, the byte counter, the running flag and the queue are
unchanged in both cases. -/
theorem Set_contract (P : String → Nat × Option String) (r : Rotator) (size : String)
    (n : Int) ( pathprefix : String) (hlock : r.locker = false) :
    ∃ r1 err, Set P r size n pathprefix = Res.ret (r1, err) ∧
      (err ≠ none ↔ (P size).2 ≠ none) ∧
      ((P size).2 = none →
        r1.limitbytes = (P size).1 ∧ r1.fileprefix = pathprefix ∧ r1.maxlogfiles = n ∧
        r1.lfile.filename = pathprefix) ∧
      ((P size).2 ≠ none →
        err = (P size).2 ∧ r1.fileprefix = r.fileprefix ∧ r1.maxlogfiles = r.maxlogfiles ∧
        r1.lfile.filename = r.lfile.filename) ∧
      r1.lfile.index = r.lfile.index ∧ r1.lfile.size = r.lfile.size ∧
      r1.running = r.running ∧ r1.internal = r.internal ∧ r1.locker = r.locker := by
  simp only [Set, hlock, Bool.false_eq_true, if_false]
  cases hp : (P size).2 with
  | none =>
    simp only [Res.ret.injEq, Prod.mk.injEq]
    refine ⟨_, _, ⟨rfl, rfl⟩, ?_⟩
    simp
  | some err =>
    simp only [Res.ret.injEq, Prod.mk.injEq]
    refine ⟨_, _, ⟨rfl, rfl⟩, ?_⟩
    simp

/-- The call `Set("100 KB", 6, "somelog")` of the test `TestSet` on a fresh rotator; the size
string of `TestSetError` is rejected by the sample parser. -/
theorem Set_contract_witness :
    (NewRotator sampleParse).locker = false ∧
    (∃ r1 err, Set sampleParse (NewRotator sampleParse) "100 KB" 6 "somelog" =
        Res.ret (r1, err) ∧
      (err ≠ none ↔ (sampleParse "100 KB").2 ≠ none) ∧
      ((sampleParse "100 KB").2 = none →
        r1.limitbytes = (sampleParse "100 KB").1 ∧ r1.fileprefix = "somelog" ∧
        r1.maxlogfiles = 6 ∧ r1.lfile.filename = "somelog") ∧
      ((sampleParse "100 KB").2 ≠ none →
        err = (sampleParse "100 KB").2 ∧
        r1.fileprefix = Rotator.fileprefix (NewRotator sampleParse) ∧
        r1.maxlogfiles = (NewRotator sampleParse).maxlogfiles ∧
        r1.lfile.filename = (NewRotator sampleParse).lfile.filename) ∧
      r1.lfile.index = (NewRotator sampleParse).lfile.index ∧
      r1.lfile.size = (NewRotator sampleParse).lfile.size ∧
      r1.running = (NewRotator sampleParse).running ∧
      r1.internal = (NewRotator sampleParse).internal ∧
      r1.locker = (NewRotator sampleParse).locker) ∧
    (sampleParse "100 KB" = (100000, none) ∧ (sampleParse "100 mmmKB").2 ≠ none) :=
  ⟨rfl, Set_contract sampleParse (NewRotator sampleParse) "100 KB" 6 "somelog" rfl,
    by decide⟩

/-! ## Lemmas on the rotation -/

theorem wrapInt64_id (x : Int) (h1 : -(2 ^ 63) ≤ x) (h2 : x < 2 ^ 63) : wrapInt64 x = x := by
  unfold wrapInt64
  omega

theorem advanceIndex_mod (N i : Int) (hN : 1 ≤ N) (hN64 : N < 2 ^ 63) (hi : 0 ≤ i)
    (hiN : i < N) : advanceIndex i N = (i + 1) % N := by
  unfold advanceIndex
  rw [wrapInt64_id (N - 1) (by omega) (by omega)]
  by_cases h : i < N - 1
  · rw [if_pos h, wrapInt64_id (i + 1) (by omega) (by omega)]
    exact (Int.emod_eq_of_lt (by omega) (by omega)).symm
  · rw [if_neg h]
    have : i + 1 = N := by omega
    rw [this, Int.emod_self]

theorem resetFile_r (e : Env) (r : Rotator) (fs : FS) :
    (resetFile e r fs).1 =
      { r with lfile := { r.lfile with size := (resetFile e r fs).1.lfile.size } } := by
  unfold resetFile OpenFile
  by_cases ho : e.openOk = true <;> by_cases hs : e.statOk = true <;> simp [ho, hs]

theorem rotate_r (e : Env) (s : State) :
    (rotate e s).r =
      { s.r with
        lfile :=
          { s.r.lfile with
            index := advanceIndex s.r.lfile.index s.r.maxlogfiles
            size := (rotate e s).r.lfile.size } } := by
  unfold rotate
  simp only []
  split
  · split
    · next r2 fs2 w heq =>
      have h := resetFile_r e
        { s.r with
          lfile := { s.r.lfile with index := advanceIndex s.r.lfile.index s.r.maxlogfiles } }
        (Rename e s.fs s.r.lfile.filename (renameTarget s.r)).1
      rw [heq] at h
      simp only [] at h
      rw [h]
    · next r2 fs2 w heq =>
      have h := resetFile_r e
        { s.r with
          lfile := { s.r.lfile with index := advanceIndex s.r.lfile.index s.r.maxlogfiles } }
        (Rename e s.fs s.r.lfile.filename (renameTarget s.r)).1
      rw [heq] at h
      simp only [] at h
      rw [h]
  · rfl

theorem target_ne (p x : String) : p ++ "." ++ x ≠ p := by
  intro h
  have hl := congrArg String.length h
  simp only [String.length_append] at hl
  have : ".".length = 1 := rfl
  omega

theorem rotate_fs_target (e : Env) (s : State) (c : List Byte) (hren : e.renameOk = true)
    (hname : s.r.lfile.filename = s.r.fileprefix) (hfile : s.fs s.r.lfile.filename = some c) :
    (rotate e s).fs (renameTarget s.r) = some c := by
  have hne : renameTarget s.r ≠ s.r.lfile.filename := by
    rw [hname]
    exact target_ne _ _
  unfold rotate Rename resetFile OpenFile
  simp only [hfile, hren, if_true]
  by_cases ho : e.openOk = true <;> by_cases hs : e.statOk = true <;>
    simp [ho, hs, fsSet, hne, Ne.symm hne]

theorem rotations_index (N : Int) (hN : 1 ≤ N) (hN64 : N < 2 ^ 63) (es : List Env) :
    ∀ (s : State) (k : Nat), s.r.maxlogfiles = N → s.r.lfile.index = (k : Int) % N →
      (rotations es s).r.maxlogfiles = N ∧
      (rotations es s).r.fileprefix = s.r.fileprefix ∧
      (rotations es s).r.lfile.filename = s.r.lfile.filename ∧
      (rotations es s).r.lfile.index = ((k + es.length : Nat) : Int) % N := by
  induction es with
  | nil =>
    intro s k hmax hidx
    simp [rotations, hmax, hidx]
  | cons e es ih =>
    intro s k hmax hidx
    have hr := rotate_r e s
    have h1 : (rotate e s).r.maxlogfiles = N := by rw [hr]; exact hmax
    have h2 : (rotate e s).r.lfile.index = ((k + 1 : Nat) : Int) % N := by
      rw [hr]
      simp only []
      rw [hmax, hidx, advanceIndex_mod N _ hN hN64 (Int.emod_nonneg _ (by omega))
        (Int.emod_lt_of_pos _ (by omega)), Int.emod_add_emod]
      simp
    have h3 : (rotate e s).r.fileprefix = s.r.fileprefix := by rw [hr]
    have h4 : (rotate e s).r.lfile.filename = s.r.lfile.filename := by rw [hr]
    obtain ⟨i1, i2, i3, i4⟩ := ih (rotate e s) (k + 1) h1 h2
    have hfold : rotations (e :: es) s = rotations es (rotate e s) := rfl
    rw [hfold]
    refine ⟨i1, by rw [i2, h3], by rw [i3, h4], ?_⟩
    rw [i4]
    congr 2
    simp only [List.length_cons]
    omega

theorem rotate_config (e : Env) (s : State) :
    (rotate e s).r.maxlogfiles = s.r.maxlogfiles ∧
    (rotate e s).r.fileprefix = s.r.fileprefix ∧
    (rotate e s).r.lfile.index = advanceIndex s.r.lfile.index s.r.maxlogfiles := by
  refine ⟨?_, ?_, ?_⟩ <;> rw [rotate_r e s]

theorem checkRotate_config (e : Env) (s : State) :
    (checkRotate e s).r.maxlogfiles = s.r.maxlogfiles ∧
    (checkRotate e s).r.fileprefix = s.r.fileprefix ∧
    ((checkRotate e s).r.lfile.index = s.r.lfile.index ∨
      (checkRotate e s).r.lfile.index = advanceIndex s.r.lfile.index s.r.maxlogfiles) := by
  unfold checkRotate
  cases hl : s.r.locker with
  | true => exact ⟨rfl, rfl, Or.inl rfl⟩
  | false =>
    simp only [Bool.false_eq_true, if_false]
    by_cases hover : s.r.lfile.size > s.r.limitbytes
    · have h := rotate_config e { s with r := { s.r with locker := true } }
      simp only [hover, if_true]
      split
      · exact ⟨h.1, h.2.1, Or.inr h.2.2⟩
      · exact ⟨h.1, h.2.1, Or.inr h.2.2⟩
    · simp [hover]

theorem iteration_config (e : Env) (s : State) :
    (iteration e s).r.maxlogfiles = s.r.maxlogfiles ∧
    (iteration e s).r.fileprefix = s.r.fileprefix ∧
    ((iteration e s).r.lfile.index = s.r.lfile.index ∨
      (iteration e s).r.lfile.index = advanceIndex s.r.lfile.index s.r.maxlogfiles) := by
  unfold iteration
  split
  · split
    · exact ⟨rfl, rfl, Or.inl rfl⟩
    · next c ba heq =>
      have h := checkRotate_config e
        (writeRecord e { s with r := { s.r with internal := c } } ba)
      have hw : (writeRecord e { s with r := { s.r with internal := c } } ba).r.maxlogfiles =
            s.r.maxlogfiles ∧
          (writeRecord e { s with r := { s.r with internal := c } } ba).r.fileprefix =
            s.r.fileprefix ∧
          (writeRecord e { s with r := { s.r with internal := c } } ba).r.lfile.index =
            s.r.lfile.index := by
        unfold writeRecord
        simp only []
        split <;> exact ⟨rfl, rfl, rfl⟩
      rw [hw.1, hw.2.1, hw.2.2] at h
      exact h
    · exact ⟨rfl, rfl, Or.inl rfl⟩
  · exact ⟨rfl, rfl, Or.inl rfl⟩

/-- C5: for `1 ≤ N` and `0 ≤ i < N` the index update of a rotation yields `(i + 1) mod N`,
which lies in `[0, N)`.  Hence, from index 0 and with `N` unchanged, after `k` rotations the
index is `k mod N`, the next rotation renames the active file to the prefix followed by a
dot and `k mod N` (when the rename succeeds the content of the active file is found
there), and `N` rotations later the same name is used again.  An iteration of the worker
changes the index only by this update and leaves `N` and the prefix as they are. -/
theorem rotation_index_ring (N i : Int) (s : State) (es : List Env)
    (hN : 1 ≤ N) (hN64 : N < 2 ^ 63) (hi : 0 ≤ i) (hiN : i < N)
    (h0 : s.r.lfile.index = 0) (hmax : s.r.maxlogfiles = N)
    (hname : s.r.lfile.filename = s.r.fileprefix) :
    (advanceIndex i N = (i + 1) % N ∧ 0 ≤ advanceIndex i N ∧ advanceIndex i N < N) ∧
    (rotations es s).r.maxlogfiles = N ∧
    (rotations es s).r.lfile.index = (es.length : Int) % N ∧
    renameTarget (rotations es s).r =
      s.r.fileprefix ++ "." ++ Itoa ((es.length : Int) % N) ∧
    (∀ (e : Env) (c : List Byte), e.renameOk = true →
      (rotations es s).fs (rotations es s).r.lfile.filename = some c →
      (rotate e (rotations es s)).fs
        ( s.r.fileprefix ++ "." ++ Itoa ((es.length : Int) % N)) = some c) ∧
    (∀ es1 : List Env, (es1.length : Int) = N →
      renameTarget (rotations (es ++ es1) s).r = renameTarget (rotations es s).r) ∧
    (∀ (e : Env) (t : State),
      (iteration e t).r.maxlogfiles = t.r.maxlogfiles ∧
      (iteration e t).r.fileprefix = t.r.fileprefix ∧
      ((iteration e t).r.lfile.index = t.r.lfile.index ∨
        (iteration e t).r.lfile.index = advanceIndex t.r.lfile.index t.r.maxlogfiles)) := by
  have hadv := advanceIndex_mod N i hN hN64 hi hiN
  have key : ∀ l : List Env,
      (rotations l s).r.maxlogfiles = N ∧
      (rotations l s).r.fileprefix = s.r.fileprefix ∧
      (rotations l s).r.lfile.filename = s.r.lfile.filename ∧
      (rotations l s).r.lfile.index = (l.length : Int) % N := by
    intro l
    have h := rotations_index N hN hN64 l s 0 hmax (by simp [h0])
    simpa using h
  have htarget : ∀ l : List Env,
      renameTarget (rotations l s).r = s.r.fileprefix ++ "." ++ Itoa ((l.length : Int) % N) := by
    intro l
    obtain ⟨_, k2, _, k4⟩ := key l
    unfold renameTarget
    rw [k2, k4]
  refine ⟨⟨hadv, ?_, ?_⟩, (key es).1, (key es).2.2.2, htarget es, ?_, ?_, iteration_config⟩
  · rw [hadv]
    exact Int.emod_nonneg _ (by omega)
  · rw [hadv]
    exact Int.emod_lt_of_pos _ (by omega)
  · intro e c hren hfile
    rw [← htarget es]
    obtain ⟨_, k2, k3, _⟩ := key es
    exact rotate_fs_target e (rotations es s) c hren (by rw [k3, k2, hname]) hfile
  · intro es1 hlen
    rw [htarget, htarget]
    congr 2
    rw [List.length_append]
    push_cast
    rw [hlen, Int.add_emod_self]

/-- Two retained files: from index 0 three rotations, one of them with a failing rename, lead to
the target `logfile.1`, two rotations to `logfile.0`. -/
theorem rotation_index_ring_witness :
    ((1 : Int) ≤ 2 ∧ (2 : Int) < 2 ^ 63 ∧ (0 : Int) ≤ 1 ∧ (1 : Int) < 2 ∧
      overLimit.r.lfile.index = 0 ∧ overLimit.r.maxlogfiles = 2 ∧
      overLimit.r.lfile.filename = overLimit.r.fileprefix) ∧
    ((advanceIndex 1 2 = (1 + 1) % 2 ∧ 0 ≤ advanceIndex 1 2 ∧ advanceIndex 1 2 < 2) ∧
      (rotations [Env.ok, renameFails, Env.ok] overLimit).r.lfile.index =
        (([Env.ok, renameFails, Env.ok] : List Env).length : Int) % 2 ∧
      renameTarget (rotations [Env.ok, renameFails, Env.ok] overLimit).r =
        overLimit.r.fileprefix ++ "." ++
          Itoa ((([Env.ok, renameFails, Env.ok] : List Env).length : Int) % 2)) ∧
    (renameTarget (rotations [Env.ok, renameFails, Env.ok] overLimit).r = "logfile.1" ∧
      renameTarget (rotations [Env.ok, renameFails] overLimit).r = "logfile.0") :=
  ⟨by decide,
    ⟨(rotation_index_ring 2 1 overLimit [Env.ok, renameFails, Env.ok] (by decide) (by decide)
        (by decide) (by decide) (by decide) (by decide) (by decide)).1,
      (rotation_index_ring 2 1 overLimit [Env.ok, renameFails, Env.ok] (by decide) (by decide)
        (by decide) (by decide) (by decide) (by decide) (by decide)).2.2.1,
      (rotation_index_ring 2 1 overLimit [Env.ok, renameFails, Env.ok] (by decide) (by decide)
        (by decide) (by decide) (by decide) (by decide) (by decide)).2.2.2.1⟩,
    by decide⟩

theorem Rename_fails_fs (e : Env) (fs : FS) (a b : String) (h : (Rename e fs a b).2 = false) :
    (Rename e fs a b).1 = fs := by
  unfold Rename at h ⊢
  cases hf : fs a with
  | none => simp
  | some c =>
    by_cases hr : e.renameOk = true
    · simp [hf, hr] at h
    · simp [hr]

theorem rotate_rename_fails (e : Env) (s : State)
    (h : (Rename e s.fs s.r.lfile.filename (renameTarget s.r)).2 = false) :
    rotate e s =
      { r := { s.r with
          lfile := { s.r.lfile with index := advanceIndex s.r.lfile.index s.r.maxlogfiles } }
        fs := s.fs
        wk := { s.wk with w := closeFile s.wk.w } } := by
  have hfs := Rename_fails_fs e s.fs _ _ h
  unfold rotate
  simp only [h, hfs, Bool.false_eq_true, if_false]

/-- C8 (counterexample): the active file holds 15 bytes against a limit of 10 and the rename
to `logfile.0` fails; after the step the rotation index is 1, not 0. -/
theorem rename_failure_index_advances :
    overLimit.r.lfile.size > overLimit.r.limitbytes ∧
    (Rename renameFails overLimit.fs overLimit.r.lfile.filename
      (renameTarget overLimit.r)).2 = false ∧
    overLimit.r.lfile.index = 0 ∧
    (checkRotate renameFails overLimit).r.lfile.index = 1 ∧
    (checkRotate renameFails overLimit).r.lfile.index ≠ overLimit.r.lfile.index := by
  decide

/-- C8 (amended): when the rotation predicate holds and the rename fails, no file is renamed
(the file system is unchanged), the byte counter is not reset, the handle is left closed,
the lock is released and the worker keeps running; the rotation index is nevertheless
advanced by the index update of a rotation. -/
theorem rename_failure_step (e : Env) (s : State) (hlock : s.r.locker = false)
    (halive : s.wk.status = Status.alive) (hover : s.r.lfile.size > s.r.limitbytes)
    (hfail : (Rename e s.fs s.r.lfile.filename (renameTarget s.r)).2 = false) :
    checkRotate e s =
      { r := { s.r with
          lfile := { s.r.lfile with index := advanceIndex s.r.lfile.index s.r.maxlogfiles } }
        fs := s.fs
        wk := { w := closeFile s.wk.w, status := Status.alive } } ∧
    (checkRotate e s).wk.status = Status.alive ∧
    (checkRotate e s).r.locker = false ∧
    (checkRotate e s).r.lfile.size = s.r.lfile.size := by
  have hstate : checkRotate e s =
      { r := { s.r with
          lfile := { s.r.lfile with index := advanceIndex s.r.lfile.index s.r.maxlogfiles } }
        fs := s.fs
        wk := { w := closeFile s.wk.w, status := Status.alive } } := by
    have hrot := rotate_rename_fails e { s with r := { s.r with locker := true } } hfail
    unfold checkRotate
    simp only [hlock, Bool.false_eq_true, if_false, hover, if_true, hrot, halive]
  rw [hstate]
  exact ⟨rfl, rfl, hlock, rfl⟩

/-- The failing rename at the state `overLimit`. -/
theorem rename_failure_step_witness :
    (overLimit.r.locker = false ∧ overLimit.wk.status = Status.alive ∧
      overLimit.r.lfile.size > overLimit.r.limitbytes ∧
      (Rename renameFails overLimit.fs overLimit.r.lfile.filename
        (renameTarget overLimit.r)).2 = false) ∧
    (checkRotate renameFails overLimit =
      { r := { overLimit.r with
          lfile := { overLimit.r.lfile with
            index := advanceIndex overLimit.r.lfile.index overLimit.r.maxlogfiles } }
        fs := overLimit.fs
        wk := { w := closeFile overLimit.wk.w, status := Status.alive } } ∧
    (checkRotate renameFails overLimit).wk.status = Status.alive ∧
    (checkRotate renameFails overLimit).r.locker = false ∧
    (checkRotate renameFails overLimit).r.lfile.size = overLimit.r.lfile.size) :=
  ⟨by decide, rename_failure_step renameFails overLimit (by decide) (by decide) (by decide)
    (by decide)⟩

theorem checkRotate_unlocks (e : Env) (s : State) (hlock : s.r.locker = false)
    (hrun : (checkRotate e s).wk.status ≠ Status.exited) :
    (checkRotate e s).r.locker = false := by
  unfold checkRotate at hrun ⊢
  simp only [hlock, Bool.false_eq_true, if_false] at hrun ⊢
  by_cases hover : s.r.lfile.size > s.r.limitbytes
  · simp only [hover, if_true] at hrun ⊢
    split
    · next h =>
      simp only [h] at hrun
      exact absurd rfl hrun
    · rfl
  · simp only [hover, if_false]

theorem checkRotate_leaks (e : Env) (s : State) (hlock : s.r.locker = false)
    (halive : s.wk.status = Status.alive)
    (hexit : (checkRotate e s).wk.status = Status.exited) :
    (checkRotate e s).r.locker = true ∧ s.r.lfile.size > s.r.limitbytes ∧
    (Rename e s.fs s.r.lfile.filename (renameTarget s.r)).2 = true := by
  unfold checkRotate at hexit ⊢
  simp only [hlock, Bool.false_eq_true, if_false] at hexit ⊢
  by_cases hover : s.r.lfile.size > s.r.limitbytes
  · simp only [hover, if_true] at hexit ⊢
    have hr := rotate_r e { s with r := { s.r with locker := true } }
    cases hren : (Rename e s.fs s.r.lfile.filename (renameTarget s.r)).2 with
    | false =>
      have hrot := rotate_rename_fails e { s with r := { s.r with locker := true } } hren
      rw [hrot] at hexit
      simp only [halive] at hexit
      cases hexit
    | true =>
      split
      · next h =>
        rw [hr]
        exact ⟨rfl, trivial, rfl⟩
      · next h =>
        split at hexit
        · next h1 => exact absurd h1 (h)
        · simp only [] at hexit
          exact absurd hexit (h)
  · simp only [hover, if_false, halive] at hexit
    cases hexit

/-- C9 (failing inputs): on the rotator configured by `Set("10", 2, "logfile")`, after
`Start; Stop; Stop; Start` the second worker receives the nil record left by the second
`Stop` and returns while `running` is true; and a worker whose reopen fails during a
rotation returns while `running` is true. -/
theorem running_outlives_worker :
    Set sampleParse (NewRotator sampleParse) "10" 2 "logfile" = Res.ret (sampleRotator, none) ∧
    (stopTwiceThenStart sampleRotator emptyFS).map
        (fun x => (x.1.r.running, x.1.wk.status, x.2.status, x.1.r.internal.buf)) =
      some (true, Status.exited, Status.exited, []) ∧
    beforeCrossing.r.running = true ∧ beforeCrossing.wk.status = Status.alive ∧
    (iteration openFails beforeCrossing).wk.status = Status.exited ∧
    (iteration openFails beforeCrossing).r.running = true := by
  refine ⟨?_, ?_, ?_, ?_, ?_, ?_⟩
  · decide
  · rfl
  · decide
  · decide
  · decide
  · decide

/-- C10 (failing input): after `Start` and the records `som` and `1om789` the record `1om123`
takes the active file to 15 bytes against a limit of 10; the rename succeeds and the
reopen fails: the worker returns with the lock held, and `Stop`, `Close`, `Set` and `Start`
block from then on.  When instead the rename fails the lock is released. -/
theorem reopen_failure_keeps_lock :
    (startThen sampleRotator emptyFS
        [Act.write (bytesOf "som"), Act.step, Act.write (bytesOf "1om789"), Act.step,
          Act.write (bytesOf "1om123")]).map
        (fun x => (x.1.r, x.1.wk, x.1.fs "logfile", x.1.fs "logfile.0")) =
      some (beforeCrossing.r, beforeCrossing.wk, beforeCrossing.fs "logfile",
        beforeCrossing.fs "logfile.0") ∧
    beforeCrossing.r.locker = false ∧
    (iteration openFails beforeCrossing).wk.status = Status.exited ∧
    (iteration openFails beforeCrossing).r.locker = true ∧
    (iteration openFails beforeCrossing).fs "logfile.0" = some (bytesOf "som1om7891om123") ∧
    Stop (iteration openFails beforeCrossing).r = Res.blocks (iteration openFails beforeCrossing).r ∧
    Close (iteration openFails beforeCrossing).r =
      Res.blocks (iteration openFails beforeCrossing).r ∧
    Set sampleParse (iteration openFails beforeCrossing).r "10" 2 "logfile" =
      Res.blocks ((iteration openFails beforeCrossing).r, none) ∧
    (Start Env.ok (iteration openFails beforeCrossing).r
      (iteration openFails beforeCrossing).fs).value?.isNone = true ∧
    (iteration renameFails beforeCrossing).wk.status = Status.alive ∧
    (iteration renameFails beforeCrossing).r.locker = false := by
  refine ⟨?_, ?_⟩
  · rfl
  · decide

/-! ## Lemmas on one worker that runs with every system call succeeding -/

theorem fsSet_apply (fs : FS) (n : String) (c : Option (List Byte)) (x : String) :
    fsSet fs n c x = if x = n then c else fs x := rfl

theorem fsSet_fsSet (fs : FS) (n : String) (c d : Option (List Byte)) :
    fsSet (fsSet fs n c) n d = fsSet fs n d := by
  funext x
  simp only [fsSet_apply]
  split <;> rfl

theorem fsSet_same (fs : FS) (n : String) (c : Option (List Byte)) (h : fs n = c) :
    fsSet fs n c = fs := by
  funext x
  simp only [fsSet_apply]
  split
  · next hx => rw [hx, h]
  · rfl

theorem iteration_append (c : Rotator) (fs : FS) (cur b : List Byte) (q : List Slice)
    (hlock : c.locker = false) (hfit : cur.length + b.length ≤ c.limitbytes)
    (h64 : cur.length + b.length < 2 ^ 64) :
    iteration Env.ok (track c fs cur (some b :: q) Status.alive false) =
      track c fs (cur ++ b) q Status.alive false := by
  have hmod : (cur.length + b.length) % 2 ^ 64 = cur.length + b.length :=
    Nat.mod_eq_of_lt h64
  have hnot : ¬ (cur.length + b.length > c.limitbytes) := by omega
  simp only [iteration, track, recv, writeRecord, fileWrite, checkRotate, Env.ok, fsSet_apply,
    if_true, hlock, Bool.false_eq_true, if_false, hmod, hnot, fsSet_fsSet, List.length_append]

theorem iteration_rotate (c : Rotator) (fs : FS) (cur b : List Byte) (q : List Slice)
    (hlock : c.locker = false) (hname : c.lfile.filename = c.fileprefix)
    (hover : cur.length + b.length > c.limitbytes) (h64 : cur.length + b.length < 2 ^ 64) :
    iteration Env.ok (track c fs cur (some b :: q) Status.alive false) =
      track { c with
          lfile := { c.lfile with index := advanceIndex c.lfile.index c.maxlogfiles } }
        (fsSet fs (renameTarget c) (some (cur ++ b))) [] q Status.alive false := by
  have hmod : (cur.length + b.length) % 2 ^ 64 = cur.length + b.length :=
    Nat.mod_eq_of_lt h64
  have hne : c.lfile.filename ≠ c.fileprefix ++ "." ++ Itoa c.lfile.index := by
    rw [hname]
    exact (target_ne _ _).symm
  have hfs : fsSet (fsSet (fsSet fs c.lfile.filename none)
      ( c.fileprefix ++ "." ++ Itoa c.lfile.index) (some (cur ++ b)))
      c.lfile.filename (some []) =
      fsSet (fsSet fs ( c.fileprefix ++ "." ++ Itoa c.lfile.index) (some (cur ++ b)))
        c.lfile.filename (some []) := by
    funext x
    simp only [fsSet_apply]
    by_cases h1 : x = c.lfile.filename
    · simp [h1]
    · simp [h1]
  simp only [iteration, track, recv, writeRecord, fileWrite, checkRotate, Env.ok, fsSet_apply,
    if_true, hlock, Bool.false_eq_true, if_false, hmod, hover, fsSet_fsSet, rotate, Rename,
    resetFile, OpenFile, closeFile, fileSize, Option.map, hne, hfs, List.length_nil,
    Nat.zero_mod, renameTarget]

theorem iteration_wait (e : Env) (c : Rotator) (fs : FS) (cur : List Byte)
    (hopen : c.internal.closed = false) :
    iteration e (track c fs cur [] Status.alive false) = track c fs cur [] Status.alive false := by
  simp only [iteration, track, recv, hopen, Bool.false_eq_true, if_false]

theorem iteration_sentinel (e : Env) (c : Rotator) (fs : FS) (cur : List Byte) (q : List Slice) :
    iteration e (track c fs cur (none :: q) Status.alive false) =
      track c fs cur q Status.exited true := by
  simp only [iteration, track, recv, closeFile, Option.map]

theorem iteration_exited (e : Env) (c : Rotator) (fs : FS) (cur : List Byte) (q : List Slice)
    (cl : Bool) :
    iteration e (track c fs cur q Status.exited cl) = track c fs cur q Status.exited cl := by
  simp only [iteration, track]

theorem Write_track_room (c : Rotator) (fs : FS) (cur b : List Byte) (q : List Slice)
    (st : Status) (cl : Bool) (hopen : c.internal.closed = false)
    (hroom : q.length < c.internal.cap) :
    Write (track c fs cur q st cl).r (some b) =
      Res.ret ((track c fs cur (q ++ [some b]) st cl).r, b.length, none) := by
  rw [Write_some]
  simp only [track, hopen, Bool.false_eq_true, if_false, hroom, if_true]

theorem Write_track_full (c : Rotator) (fs : FS) (cur b : List Byte) (q : List Slice)
    (st : Status) (cl : Bool) (hopen : c.internal.closed = false)
    (hfull : ¬ q.length < c.internal.cap) :
    Write (track c fs cur q st cl).r (some b) =
      Res.ret ((track c fs cur q st cl).r, 0, some writeTimeout) := by
  rw [Write_some]
  simp only [track, hopen, Bool.false_eq_true, if_false, hfull]

theorem track_with_r (c : Rotator) (fs : FS) (cur : List Byte) (q q1 : List Slice)
    (st : Status) (cl : Bool) :
    { track c fs cur q st cl with r := (track c fs cur q1 st cl).r } =
      track c fs cur q1 st cl := rfl

theorem Stop_track (c : Rotator) (fs : FS) (cur : List Byte) (q : List Slice) (st : Status)
    (cl : Bool) (hlock : c.locker = false) (hopen : c.internal.closed = false)
    (hroom : q.length < c.internal.cap) :
    Stop (track c fs cur q st cl).r =
      Res.ret (track (halted c) fs cur (q ++ [none]) st cl).r := by
  simp only [Stop, track, halted, hlock, hopen, Bool.false_eq_true, if_false, hroom, if_true]

theorem Start_present (r : Rotator) (fs : FS) (cur : List Byte) (hlock : r.locker = false)
    (hrun : r.running = false) (hfile : fs r.lfile.filename = some cur)
    (h64 : cur.length < 2 ^ 64) :
    Start Env.ok r fs =
      Res.ret ((track (resumed r) fs cur r.internal.buf Status.alive false).r,
        (track (resumed r) fs cur r.internal.buf Status.alive false).fs,
        some (track (resumed r) fs cur r.internal.buf Status.alive false).wk) := by
  have hmod : cur.length % 2 ^ 64 = cur.length := Nat.mod_eq_of_lt h64
  simp only [Start, track, resumed, resetFile, OpenFile, fileSize, Env.ok, hlock, hrun, hfile,
    Bool.false_eq_true, if_false, if_true, hmod, fsSet_same fs _ _ hfile]

theorem Start_absent (r : Rotator) (fs : FS) (hlock : r.locker = false)
    (hrun : r.running = false) (hfile : fs r.lfile.filename = none) :
    Start Env.ok r fs =
      Res.ret ((track (resumed r) fs [] r.internal.buf Status.alive false).r,
        (track (resumed r) fs [] r.internal.buf Status.alive false).fs,
        some (track (resumed r) fs [] r.internal.buf Status.alive false).wk) := by
  simp only [Start, track, resumed, resetFile, OpenFile, fileSize, Env.ok, hlock, hrun, hfile,
    Bool.false_eq_true, if_false, if_true, fsSet_apply, List.length_nil, Nat.zero_mod]

theorem exec_append (e : Env) (a1 a2 : List Act) (x : State × List (List Byte)) :
    exec e (a1 ++ a2) x = (exec e a1 x).bind (exec e a2) := by
  induction a1 generalizing x with
  | nil => simp [exec]
  | cons a a1 ih =>
    cases a with
    | write b =>
      simp only [List.cons_append, exec]
      split <;> simp [ih]
    | step =>
      simp only [List.cons_append, exec]
      exact ih _

theorem pending_snoc (L : Nat) (pre : List (List Byte)) (b : List Byte) :
    pending L (pre ++ [b]) =
      if (pending L pre).flatten.length + b.length > L then [] else pending L pre ++ [b] := by
  unfold pending
  rw [List.foldl_append]
  simp

theorem startThen_append (r : Rotator) (fs : FS) (a1 a2 : List Act) :
    startThen r fs (a1 ++ a2) = (startThen r fs a1).bind (exec Env.ok a2) := by
  unfold startThen
  split
  · exact exec_append _ _ _ _
  · rfl

theorem startThen_fresh (r : Rotator) (fs : FS) (acts : List Act)
    (hlock : r.locker = false) (hrun : r.running = false)
    (hname : r.lfile.filename = r.fileprefix) (hq : r.internal.buf = [])
    (hfile : fs r.fileprefix = none ∨ fs r.fileprefix = some []) :
    startThen r fs acts =
      exec Env.ok acts (track (started r r.lfile.index) fs [] [] Status.alive false, []) := by
  rw [← hname] at hfile
  have hstart : Start Env.ok r fs =
      Res.ret ((track (resumed r) fs [] [] Status.alive false).r,
        (track (resumed r) fs [] [] Status.alive false).fs,
        some (track (resumed r) fs [] [] Status.alive false).wk) := by
    rw [← hq]
    rcases hfile with h | h
    · exact Start_absent r fs hlock hrun h
    · exact Start_present r fs [] hlock hrun h (by simp)
  simp only [startThen, hstart]
  rfl

theorem startThen_present (r : Rotator) (fs : FS) (cur : List Byte) (acts : List Act)
    (hlock : r.locker = false) (hrun : r.running = false)
    (hfile : fs r.lfile.filename = some cur) (h64 : cur.length < 2 ^ 64) :
    startThen r fs acts =
      exec Env.ok acts (track (resumed r) fs cur r.internal.buf Status.alive false, []) := by
  simp only [startThen, Start_present r fs cur hlock hrun hfile h64]

theorem renameTarget_track (c : Rotator) (fs : FS) (cur : List Byte) (q : List Slice)
    (st : Status) (cl : Bool) : renameTarget (track c fs cur q st cl).r = renameTarget c := rfl

theorem exec_write_cons (e : Env) (b : List Byte) (acts : List Act)
    (x : State × List (List Byte)) :
    exec e (Act.write b :: acts) x =
      match Write x.1.r (some b) with
      | Res.ret (r, _, none) => exec e acts ({ x.1 with r := r }, x.2 ++ [b])
      | Res.ret (r, _, some _) => exec e acts ({ x.1 with r := r }, x.2)
      | _ => none := rfl

theorem exec_step_cons (e : Env) (acts : List Act) (x : State × List (List Byte)) :
    exec e (Act.step :: acts) x = exec e acts (iteration e x.1, x.2) := rfl

theorem exec_alive (c : Rotator) (fs : FS) (hlock : c.locker = false)
    (hopen : c.internal.closed = false) (h64 : c.limitbytes < 2 ^ 64) (acts : List Act) :
    ∀ (cur : List Byte) (recs log0 : List (List Byte)),
      cur.length + recs.flatten.length + (writesOf acts).flatten.length ≤ c.limitbytes →
      ∃ (cur1 : List Byte) (recs1 log : List (List Byte)),
        exec Env.ok acts (track c fs cur (recs.map some) Status.alive false, log0) =
          some (track c fs cur1 (recs1.map some) Status.alive false, log0 ++ log) ∧
        cur1 ++ recs1.flatten = cur ++ recs.flatten ++ log.flatten ∧
        log.Sublist (writesOf acts) ∧
        log.flatten.length ≤ (writesOf acts).flatten.length := by
  induction acts with
  | nil =>
    intro cur recs log0 _
    exact ⟨cur, recs, [], by simp [exec], by simp, List.Sublist.refl _, Nat.le_refl _⟩
  | cons a acts ih =>
    intro cur recs log0 hfit
    cases a with
    | write b =>
      simp only [writesOf, List.flatten_cons, List.length_append] at hfit
      by_cases hroom : (recs.map some).length < c.internal.cap
      · obtain ⟨cur1, recs1, log, h1, h2, h3, h4⟩ := ih cur (recs ++ [b]) (log0 ++ [b])
          (by simp only [List.flatten_append, List.flatten_cons, List.flatten_nil,
                List.append_nil, List.length_append]
              omega)
        refine ⟨cur1, recs1, b :: log, ?_, ?_, ?_, ?_⟩
        · rw [exec_write_cons, Write_track_room c fs cur b (recs.map some) Status.alive false
            hopen hroom]
          simp only [track_with_r]
          have hq : recs.map some ++ [some b] = (recs ++ [b]).map some := by simp
          rw [hq, h1]
          simp
        · rw [h2]
          simp
        · simp only [writesOf]
          exact List.Sublist.cons₂ b h3
        · simp only [writesOf, List.flatten_cons, List.length_append]
          omega
      · obtain ⟨cur1, recs1, log, h1, h2, h3, h4⟩ := ih cur recs log0 (by omega)
        refine ⟨cur1, recs1, log, ?_, h2, ?_, ?_⟩
        · rw [exec_write_cons, Write_track_full c fs cur b (recs.map some) Status.alive false
            hopen hroom]
          exact h1
        · simp only [writesOf]
          exact List.Sublist.cons b h3
        · simp only [writesOf, List.flatten_cons, List.length_append]
          omega
    | step =>
      simp only [writesOf] at hfit
      cases recs with
      | nil =>
        obtain ⟨cur1, recs1, log, h1, h2, h3, h4⟩ := ih cur [] log0 hfit
        refine ⟨cur1, recs1, log, ?_, h2, h3, h4⟩
        rw [exec_step_cons]
        simp only [List.map_nil, iteration_wait Env.ok c fs cur hopen]
        exact h1
      | cons b recs =>
        simp only [List.flatten_cons, List.length_append] at hfit
        obtain ⟨cur1, recs1, log, h1, h2, h3, h4⟩ := ih (cur ++ b) recs log0
          (by simp only [List.length_append]
              omega)
        refine ⟨cur1, recs1, log, ?_, ?_, h3, h4⟩
        · rw [exec_step_cons]
          simp only [List.map_cons]
          rw [iteration_append c fs cur b (recs.map some) hlock (by omega) (by omega)]
          exact h1
        · rw [h2]
          simp

theorem drain_alive (c : Rotator) (fs : FS) (hlock : c.locker = false)
    (h64 : c.limitbytes < 2 ^ 64) (recs : List (List Byte)) :
    ∀ cur : List Byte, cur.length + recs.flatten.length ≤ c.limitbytes →
      drain Env.ok (track c fs cur (recs.map some) Status.alive false) =
        track c fs (cur ++ recs.flatten) [] Status.alive false := by
  induction recs with
  | nil =>
    intro cur _
    simp [drain, track]
  | cons b recs ih =>
    intro cur hfit
    simp only [List.flatten_cons, List.length_append] at hfit
    have h := ih (cur ++ b) (by simp only [List.length_append]; omega)
    have hstep := iteration_append c fs cur b (recs.map some) hlock (by omega) (by omega)
    have hlen : (track c fs cur ((b :: recs).map some) Status.alive false).r.internal.buf.length
        = recs.length + 1 := by simp [track]
    have hlen1 : (track c fs (cur ++ b) (recs.map some) Status.alive false).r.internal.buf.length
        = recs.length := by simp [track]
    unfold drain at h ⊢
    rw [hlen, Function.iterate_succ_apply]
    rw [hlen1] at h
    simp only [List.map_cons]
    rw [hstep, h]
    simp

theorem exec_exited (c : Rotator) (fs : FS) (cur : List Byte)
    (hopen : c.internal.closed = false) (acts : List Act) :
    ∀ (recs log0 : List (List Byte)),
      ∃ log : List (List Byte),
        exec Env.ok acts (track c fs cur (recs.map some) Status.exited true, log0) =
          some (track c fs cur ((recs ++ log).map some) Status.exited true, log0 ++ log) ∧
        log.Sublist (writesOf acts) ∧
        log.flatten.length ≤ (writesOf acts).flatten.length := by
  induction acts with
  | nil =>
    intro recs log0
    exact ⟨[], by simp [exec], List.Sublist.refl _, Nat.le_refl _⟩
  | cons a acts ih =>
    intro recs log0
    cases a with
    | write b =>
      by_cases hroom : (recs.map some).length < c.internal.cap
      · obtain ⟨log, h1, h3, h4⟩ := ih (recs ++ [b]) (log0 ++ [b])
        refine ⟨b :: log, ?_, ?_, ?_⟩
        · rw [exec_write_cons, Write_track_room c fs cur b (recs.map some) Status.exited true
            hopen hroom]
          simp only [track_with_r]
          have hq : recs.map some ++ [some b] = (recs ++ [b]).map some := by simp
          rw [hq, h1]
          simp
        · simp only [writesOf]
          exact List.Sublist.cons₂ b h3
        · simp only [writesOf, List.flatten_cons, List.length_append]
          omega
      · obtain ⟨log, h1, h3, h4⟩ := ih recs log0
        refine ⟨log, ?_, ?_, ?_⟩
        · rw [exec_write_cons, Write_track_full c fs cur b (recs.map some) Status.exited true
            hopen hroom]
          exact h1
        · simp only [writesOf]
          exact List.Sublist.cons b h3
        · simp only [writesOf, List.flatten_cons, List.length_append]
          omega
    | step =>
      obtain ⟨log, h1, h3, h4⟩ := ih recs log0
      refine ⟨log, ?_, h3, h4⟩
      rw [exec_step_cons]
      simp only [iteration_exited]
      exact h1

theorem stop_and_exit (c : Rotator) (fs : FS) (cur : List Byte) (hlock : c.locker = false)
    (hopen : c.internal.closed = false) (hcap : 0 < c.internal.cap) :
    ∃ r3 : Rotator,
      Stop (track c fs cur [] Status.alive false).r = Res.ret r3 ∧
      iteration Env.ok { track c fs cur [] Status.alive false with r := r3 } =
        track (halted c) fs cur [] Status.exited true := by
  refine ⟨(track (halted c) fs cur ([] ++ [none]) Status.alive false).r,
    Stop_track c fs cur [] Status.alive false hlock hopen (by simpa using hcap), ?_⟩
  exact iteration_sentinel Env.ok (halted c) fs cur []

theorem phase_alive (c : Rotator) (fs : FS) (hlock : c.locker = false)
    (hopen : c.internal.closed = false) (h64 : c.limitbytes < 2 ^ 64) (acts : List Act)
    (cur : List Byte) (recs : List (List Byte))
    (hfit : cur.length + recs.flatten.length + (writesOf acts).flatten.length ≤ c.limitbytes) :
    ∃ (s : State) (log : List (List Byte)),
      exec Env.ok acts (track c fs cur (recs.map some) Status.alive false, []) = some (s, log) ∧
      drain Env.ok s =
        track c fs (cur ++ recs.flatten ++ log.flatten) [] Status.alive false ∧
      log.Sublist (writesOf acts) ∧
      log.flatten.length ≤ (writesOf acts).flatten.length := by
  obtain ⟨cur1, recs1, log, h1, h2, h3, h4⟩ := exec_alive c fs hlock hopen h64 acts cur recs [] hfit
  refine ⟨track c fs cur1 (recs1.map some) Status.alive false, log, ?_, ?_, h3, h4⟩
  · rw [h1, List.nil_append]
  · have hlen := congrArg List.length h2
    simp only [List.length_append] at hlen
    rw [drain_alive c fs hlock h64 recs1 cur1 (by omega), h2]

/-- C7: on a stopped rotator whose active file is absent, with every system call succeeding:
`Start`, any schedule of writes and worker iterations, drain, `Stop`, exit of the worker,
any writes while no worker runs, `Start`, any schedule, drain, `Stop`, exit.  If all the
records fit under the limit, the active file ends with exactly the records accepted in the
three phases, in order; no other file is created or changed, and the rotation index is
unchanged. -/
theorem restart_appends (r : Rotator) (fs : FS) (acts1 mid acts2 : List Act)
    (hlock : r.locker = false) (hrun : r.running = false)
    (hname : r.lfile.filename = r.fileprefix)
    (hq : r.internal.buf = []) (hopen : r.internal.closed = false)
    (hcap : 0 < r.internal.cap) (hfile : fs r.fileprefix = none)
    (hfit : (writesOf acts1 ++ writesOf mid ++ writesOf acts2).flatten.length ≤ r.limitbytes)
    (h64 : r.limitbytes < 2 ^ 64) :
    ∃ (s : State) (A M B : List (List Byte)),
      restartRun r fs acts1 mid acts2 = some (s, A, M, B) ∧
      s.fs r.fileprefix = some (A ++ M ++ B).flatten ∧
      (∀ x, x ≠ r.fileprefix → s.fs x = fs x) ∧
      A.Sublist (writesOf acts1) ∧ M.Sublist (writesOf mid) ∧ B.Sublist (writesOf acts2) ∧
      s.wk.status = Status.exited ∧ s.r.running = false ∧ s.r.internal.buf = [] ∧
      s.r.lfile.index = r.lfile.index ∧ s.r.lfile.size = (A ++ M ++ B).flatten.length := by
  simp only [List.flatten_append, List.length_append] at hfit
  -- first phase
  obtain ⟨sA, A, hA1, hA2, hA3, hA4⟩ := phase_alive (started r r.lfile.index) fs hlock hopen
    h64 acts1 [] [] (by simp only [List.length_nil, List.flatten_nil]
                        have : (started r r.lfile.index).limitbytes = r.limitbytes := rfl
                        omega)
  have hstart1 : startThen r fs acts1 = some (sA, A) := by
    rw [startThen_fresh r fs _ hlock hrun hname hq (Or.inl hfile)]
    exact hA1
  simp only [List.flatten_nil, List.append_nil, List.nil_append] at hA2
  obtain ⟨r3, hstop1, hexit1⟩ := stop_and_exit (started r r.lfile.index) fs A.flatten hlock
    hopen hcap
  -- writes while no worker runs
  obtain ⟨M, hM1, hM3, hM4⟩ := exec_exited (halted (started r r.lfile.index)) fs
    A.flatten hopen mid [] []
  simp only [List.nil_append, List.map_nil] at hM1
  -- second start, on the file left by the first worker
  have hAlen : A.flatten.length < 2 ^ 64 := by omega
  obtain ⟨sM, hsM⟩ : ∃ sM : State, sM =
      track (halted (started r r.lfile.index)) fs A.flatten (M.map some) Status.exited true :=
    ⟨_, rfl⟩
  rw [← hsM] at hM1
  have hMlock : sM.r.locker = false := by rw [hsM]; exact hlock
  have hMrun : sM.r.running = false := by rw [hsM]; rfl
  have hMopen : (resumed sM.r).internal.closed = false := by rw [hsM]; exact hopen
  have hMcap : 0 < (resumed sM.r).internal.cap := by rw [hsM]; exact hcap
  have hMlim : (resumed sM.r).limitbytes = r.limitbytes := by rw [hsM]; rfl
  have hMbuf : sM.r.internal.buf = M.map some := by rw [hsM]; rfl
  have hMname : (resumed sM.r).lfile.filename = r.fileprefix := by rw [hsM]; exact hname
  have hMidx : (resumed sM.r).lfile.index = r.lfile.index := by rw [hsM]; rfl
  have hMfile : sM.fs sM.r.lfile.filename = some A.flatten := by
    rw [hsM]
    simp only [track, fsSet_apply, if_true]
  have hMfs : ∀ x, x ≠ r.fileprefix → sM.fs x = fs x := by
    intro x hx
    have hx1 : x ≠ (halted (started r r.lfile.index)).lfile.filename := by
      intro h
      exact hx (h.trans hname)
    rw [hsM]
    simp only [track, fsSet_apply, hx1, if_false]
  have hstart2 := startThen_present sM.r sM.fs A.flatten acts2 hMlock hMrun hMfile hAlen
  rw [hMbuf] at hstart2
  obtain ⟨sB, B, hB1, hB2, hB3, hB4⟩ := phase_alive (resumed sM.r) sM.fs hMlock hMopen
    (by rw [hMlim]; exact h64) acts2 A.flatten M (by rw [hMlim]; omega)
  obtain ⟨r7, hstop2, hexit2⟩ := stop_and_exit (resumed sM.r) sM.fs
    (A.flatten ++ M.flatten ++ B.flatten) hMlock hMopen hMcap
  have hstart2b : startThen sM.r sM.fs acts2 = some (sB, B) := hstart2.trans hB1
  refine ⟨track (halted (resumed sM.r)) sM.fs (A.flatten ++ M.flatten ++ B.flatten) []
    Status.exited true, A, M, B, ?_, ?_, ?_, hA3, hM3, hB3, rfl, rfl, rfl, ?_, ?_⟩
  · simp only [restartRun, hstart1, hA2, hstop1, hexit1, hM1, hstart2b, hB2, hstop2, hexit2,
      Option.bind_eq_bind, Option.some_bind, Res.value?, Option.pure_def]
  · have hp : (halted (resumed sM.r)).lfile.filename = r.fileprefix := hMname
    simp only [track, fsSet_apply, hp, if_true, List.flatten_append]
  · intro x hx
    have hp : (halted (resumed sM.r)).lfile.filename = r.fileprefix := hMname
    simp only [track, fsSet_apply, hp, hx, if_false]
    exact hMfs x hx
  · exact hMidx
  · simp only [track, List.flatten_append]

/-- The run of `TestRestart`: `before stop` while the first worker runs, `after stop` while no
worker runs, `after restart` with the second worker. -/
theorem restart_appends_witness :
    (restartRotator.locker = false ∧ restartRotator.running = false ∧
      restartRotator.lfile.filename = restartRotator.fileprefix ∧
      restartRotator.internal.buf = [] ∧ restartRotator.internal.closed = false ∧
      0 < restartRotator.internal.cap ∧ emptyFS restartRotator.fileprefix = none ∧
      (writesOf [Act.write (bytesOf "before stop\n"), Act.step] ++
          writesOf [Act.write (bytesOf "after stop\n")] ++
          writesOf [Act.step, Act.write (bytesOf "after restart\n"), Act.step]).flatten.length ≤
        restartRotator.limitbytes ∧
      restartRotator.limitbytes < 2 ^ 64) ∧
    (∃ (s : State) (A M B : List (List Byte)),
      restartRun restartRotator emptyFS [Act.write (bytesOf "before stop\n"), Act.step]
          [Act.write (bytesOf "after stop\n")]
          [Act.step, Act.write (bytesOf "after restart\n"), Act.step] = some (s, A, M, B) ∧
      s.fs restartRotator.fileprefix = some (A ++ M ++ B).flatten ∧
      (∀ x, x ≠ restartRotator.fileprefix → s.fs x = emptyFS x) ∧
      A.Sublist (writesOf [Act.write (bytesOf "before stop\n"), Act.step]) ∧
      M.Sublist (writesOf [Act.write (bytesOf "after stop\n")]) ∧
      B.Sublist (writesOf [Act.step, Act.write (bytesOf "after restart\n"), Act.step]) ∧
      s.wk.status = Status.exited ∧ s.r.running = false ∧ s.r.internal.buf = [] ∧
      s.r.lfile.index = restartRotator.lfile.index ∧
      s.r.lfile.size = (A ++ M ++ B).flatten.length) ∧
    (Set sampleParse (NewRotator sampleParse) "1000" 2 "logfilerestart" =
        Res.ret (restartRotator, none) ∧
      (restartRun restartRotator emptyFS [Act.write (bytesOf "before stop\n"), Act.step]
          [Act.write (bytesOf "after stop\n")]
          [Act.step, Act.write (bytesOf "after restart\n"), Act.step]).map
          (fun x => (x.1.fs "logfilerestart", x.2)) =
        some (some (bytesOf "before stop\nafter stop\nafter restart\n"),
          [bytesOf "before stop\n"], [bytesOf "after stop\n"], [bytesOf "after restart\n"])) :=
  ⟨by decide,
    restart_appends restartRotator emptyFS [Act.write (bytesOf "before stop\n"), Act.step]
      [Act.write (bytesOf "after stop\n")]
      [Act.step, Act.write (bytesOf "after restart\n"), Act.step]
      (by decide) (by decide) (by decide) (by decide) (by decide) (by decide) (by decide)
      (by decide) (by decide),
    by decide, by rfl⟩

/-! ## Rotation under any schedule -/

theorem startThen_queued (r : Rotator) (fs : FS) (acts : List Act)
    (hlock : r.locker = false) (hrun : r.running = false)
    (hname : r.lfile.filename = r.fileprefix)
    (hfile : fs r.fileprefix = none ∨ fs r.fileprefix = some []) :
    startThen r fs acts =
      exec Env.ok acts
        (track (started r r.lfile.index) fs [] r.internal.buf Status.alive false, []) := by
  rw [← hname] at hfile
  have hstart : Start Env.ok r fs =
      Res.ret ((track (resumed r) fs [] r.internal.buf Status.alive false).r,
        (track (resumed r) fs [] r.internal.buf Status.alive false).fs,
        some (track (resumed r) fs [] r.internal.buf Status.alive false).wk) := by
    rcases hfile with h | h
    · exact Start_absent r fs hlock hrun h
    · exact Start_present r fs [] hlock hrun h (by simp)
  simp only [startThen, hstart]
  rfl

theorem worker_step (r : Rotator) (hlock : r.locker = false)
    (hname : r.lfile.filename = r.fileprefix) (i : Int) (fs1 : FS)
    (done rest : List (List Byte)) (b : List Byte)
    (hle : (pending r.limitbytes done).flatten.length ≤ r.limitbytes)
    (h64 : r.limitbytes + b.length < 2 ^ 64) :
    ∃ (i1 : Int) (fs2 : FS),
      iteration Env.ok (track (started r i) fs1 (pending r.limitbytes done).flatten
          (some b :: rest.map some) Status.alive false) =
        track (started r i1) fs2 (pending r.limitbytes (done ++ [b])).flatten
          (rest.map some) Status.alive false ∧
      (pending r.limitbytes (done ++ [b])).flatten.length ≤ r.limitbytes := by
  rw [pending_snoc]
  by_cases hover : (pending r.limitbytes done).flatten.length + b.length > r.limitbytes
  · refine ⟨advanceIndex i r.maxlogfiles,
      fsSet fs1 (renameTarget (started r i)) (some ((pending r.limitbytes done).flatten ++ b)),
      ?_, ?_⟩
    · rw [iteration_rotate (started r i) fs1 _ b _ hlock hname hover (by omega), if_pos hover]
      rfl
    · rw [if_pos hover]
      simp
  · refine ⟨i, fs1, ?_, ?_⟩
    · rw [iteration_append (started r i) fs1 _ b _ hlock
        (by have : (started r i).limitbytes = r.limitbytes := rfl
            omega) (by omega), if_neg hover]
      simp only [List.flatten_append, List.flatten_cons, List.flatten_nil, List.append_nil]
    · rw [if_neg hover]
      simp only [List.flatten_append, List.flatten_cons, List.flatten_nil, List.append_nil,
        List.length_append]
      omega

theorem exec_rotating (r : Rotator) (hlock : r.locker = false)
    (hname : r.lfile.filename = r.fileprefix) (hopen : r.internal.closed = false)
    (acts : List Act) :
    ∀ (i : Int) (fs1 : FS) (done queued log0 : List (List Byte)),
      (pending r.limitbytes done).flatten.length ≤ r.limitbytes →
      (∀ x ∈ queued ++ writesOf acts, r.limitbytes + x.length < 2 ^ 64) →
      ∃ (i1 : Int) (fs2 : FS) (done1 queued1 log : List (List Byte)),
        exec Env.ok acts (track (started r i) fs1 (pending r.limitbytes done).flatten
            (queued.map some) Status.alive false, log0) =
          some (track (started r i1) fs2 (pending r.limitbytes done1).flatten
            (queued1.map some) Status.alive false, log0 ++ log) ∧
        done1 ++ queued1 = done ++ queued ++ log ∧
        log.Sublist (writesOf acts) ∧
        (pending r.limitbytes done1).flatten.length ≤ r.limitbytes ∧
        (∀ x ∈ queued1, r.limitbytes + x.length < 2 ^ 64) := by
  induction acts with
  | nil =>
    intro i fs1 done queued log0 hle hsz
    exact ⟨i, fs1, done, queued, [], by simp [exec], by simp, List.Sublist.refl _, hle,
      fun x hx => hsz x (by simp [hx])⟩
  | cons a acts ih =>
    intro i fs1 done queued log0 hle hsz
    cases a with
    | write b =>
      by_cases hroom : (queued.map some).length < (started r i).internal.cap
      · obtain ⟨i1, fs2, done1, queued1, log, h1, h2, h3, h4, h5⟩ :=
          ih i fs1 done (queued ++ [b]) (log0 ++ [b]) hle
            (fun x hx => hsz x (by
              simp only [writesOf, List.mem_append, List.mem_cons, List.mem_singleton,
                List.not_mem_nil, or_false] at hx ⊢
              tauto))
        refine ⟨i1, fs2, done1, queued1, b :: log, ?_, ?_, ?_, h4, h5⟩
        · rw [exec_write_cons, Write_track_room (started r i) fs1 _ b (queued.map some)
            Status.alive false hopen hroom]
          simp only [track_with_r]
          have hq : queued.map some ++ [some b] = (queued ++ [b]).map some := by simp
          rw [hq, h1]
          simp
        · rw [h2]
          simp
        · simp only [writesOf]
          exact List.Sublist.cons₂ b h3
      · obtain ⟨i1, fs2, done1, queued1, log, h1, h2, h3, h4, h5⟩ :=
          ih i fs1 done queued log0 hle
            (fun x hx => hsz x (by
              simp only [writesOf, List.mem_append, List.mem_cons] at hx ⊢
              tauto))
        refine ⟨i1, fs2, done1, queued1, log, ?_, h2, ?_, h4, h5⟩
        · rw [exec_write_cons, Write_track_full (started r i) fs1 _ b (queued.map some)
            Status.alive false hopen hroom]
          exact h1
        · simp only [writesOf]
          exact List.Sublist.cons b h3
    | step =>
      simp only [writesOf] at hsz
      cases queued with
      | nil =>
        obtain ⟨i1, fs2, done1, queued1, log, h1, h2, h3, h4, h5⟩ :=
          ih i fs1 done [] log0 hle hsz
        refine ⟨i1, fs2, done1, queued1, log, ?_, h2, h3, h4, h5⟩
        rw [exec_step_cons]
        simp only [List.map_nil, iteration_wait Env.ok (started r i) fs1 _ hopen]
        exact h1
      | cons b rest =>
        obtain ⟨j, fs3, hstep, hle1⟩ := worker_step r hlock hname i fs1 done rest b hle
          (hsz b (by simp))
        obtain ⟨i1, fs2, done1, queued1, log, h1, h2, h3, h4, h5⟩ :=
          ih j fs3 (done ++ [b]) rest log0 hle1
            (fun x hx => hsz x (by
              simp only [List.mem_append, List.mem_cons] at hx ⊢
              tauto))
        refine ⟨i1, fs2, done1, queued1, log, ?_, ?_, h3, h4, h5⟩
        · rw [exec_step_cons]
          simp only [List.map_cons]
          rw [hstep]
          exact h1
        · rw [h2]
          simp

theorem drain_rotating (r : Rotator) (hlock : r.locker = false)
    (hname : r.lfile.filename = r.fileprefix) (queued : List (List Byte)) :
    ∀ (i : Int) (fs1 : FS) (done : List (List Byte)),
      (pending r.limitbytes done).flatten.length ≤ r.limitbytes →
      (∀ x ∈ queued, r.limitbytes + x.length < 2 ^ 64) →
      ∃ (i1 : Int) (fs2 : FS),
        drain Env.ok (track (started r i) fs1 (pending r.limitbytes done).flatten
            (queued.map some) Status.alive false) =
          track (started r i1) fs2 (pending r.limitbytes (done ++ queued)).flatten []
            Status.alive false := by
  induction queued with
  | nil =>
    intro i fs1 done _ _
    exact ⟨i, fs1, by simp [drain, track]⟩
  | cons b rest ih =>
    intro i fs1 done hle hsz
    obtain ⟨j, fs3, hstep, hle1⟩ := worker_step r hlock hname i fs1 done rest b hle
      (hsz b (by simp))
    obtain ⟨i1, fs2, h⟩ := ih j fs3 (done ++ [b]) hle1 (fun x hx => hsz x (by simp [hx]))
    refine ⟨i1, fs2, ?_⟩
    have hlen : (track (started r i) fs1 (pending r.limitbytes done).flatten
        ((b :: rest).map some) Status.alive false).r.internal.buf.length = rest.length + 1 := by
      simp [track]
    have hlen1 : (track (started r j) fs3 (pending r.limitbytes (done ++ [b])).flatten
        (rest.map some) Status.alive false).r.internal.buf.length = rest.length := by
      simp [track]
    unfold drain at h ⊢
    rw [hlen, Function.iterate_succ_apply]
    rw [hlen1] at h
    simp only [List.map_cons]
    rw [hstep, h]
    simp

/-- C6: a worker is started on an absent or empty active file, with the records `q0` already
queued, and any schedule of writes and worker iterations follows, every system call
succeeding.  The worker has then processed, in order, a prefix `done` of the accepted
records and the rest is still queued; the active file holds exactly the records of `done`
written since the last rotation and the byte counter is its size, at most the limit.  At
the next iteration, on the record `b` at the head of the queue: if the count after `b`
exceeds the limit the worker rotates once, the rotated file holds these records followed
by `b`, more bytes than the limit, and the active file is empty again; otherwise (also
when the count equals the limit) `b` is appended and no file is renamed.  In both cases
the records behind `b` stay queued.  Once the queue is drained the active file holds the
records written since the last rotation among all accepted records. -/
theorem rotation_at_crossings (r : Rotator) (fs : FS) (q0 : List (List Byte))
    (acts : List Act)
    (hlock : r.locker = false) (hrun : r.running = false)
    (hname : r.lfile.filename = r.fileprefix)
    (hq : r.internal.buf = q0.map some) (hopen : r.internal.closed = false)
    (hfile : fs r.fileprefix = none ∨ fs r.fileprefix = some [])
    (hsize : ∀ x ∈ q0 ++ writesOf acts, r.limitbytes + x.length < 2 ^ 64) :
    ∃ (s : State) (log done queued : List (List Byte)),
      startThen r fs acts = some (s, log) ∧
      log.Sublist (writesOf acts) ∧ done ++ queued = q0 ++ log ∧
      s.wk.status = Status.alive ∧ s.r.locker = false ∧
      s.r.internal.buf = queued.map some ∧
      s.fs r.fileprefix = some (pending r.limitbytes done).flatten ∧
      s.r.lfile.size = (pending r.limitbytes done).flatten.length ∧
      s.r.lfile.size ≤ r.limitbytes ∧
      renameTarget s.r ≠ r.fileprefix ∧
      (queued = [] → iteration Env.ok s = s) ∧
      (∀ (b : List Byte) (rest : List (List Byte)), queued = b :: rest →
        startThen r fs (acts ++ [Act.step]) = some (iteration Env.ok s, log) ∧
        (iteration Env.ok s).wk.status = Status.alive ∧
        (iteration Env.ok s).r.locker = false ∧
        (iteration Env.ok s).r.internal.buf = rest.map some ∧
        (s.r.lfile.size + b.length > r.limitbytes →
          (iteration Env.ok s).fs (renameTarget s.r) =
            some ((pending r.limitbytes done).flatten ++ b) ∧
          r.limitbytes < ((pending r.limitbytes done).flatten ++ b).length ∧
          (iteration Env.ok s).fs r.fileprefix = some [] ∧
          (iteration Env.ok s).r.lfile.size = 0 ∧
          (iteration Env.ok s).r.lfile.index =
            advanceIndex s.r.lfile.index s.r.maxlogfiles ∧
          pending r.limitbytes (done ++ [b]) = [] ∧
          ∀ x, x ≠ r.fileprefix → x ≠ renameTarget s.r →
            (iteration Env.ok s).fs x = s.fs x) ∧
        (¬ s.r.lfile.size + b.length > r.limitbytes →
          (iteration Env.ok s).fs r.fileprefix =
            some ((pending r.limitbytes done).flatten ++ b) ∧
          (iteration Env.ok s).r.lfile.size = s.r.lfile.size + b.length ∧
          (iteration Env.ok s).r.lfile.index = s.r.lfile.index ∧
          pending r.limitbytes (done ++ [b]) = pending r.limitbytes done ++ [b] ∧
          ∀ x, x ≠ r.fileprefix → (iteration Env.ok s).fs x = s.fs x)) ∧
      (drain Env.ok s).wk.status = Status.alive ∧
      (drain Env.ok s).r.internal.buf = [] ∧
      (drain Env.ok s).fs r.fileprefix = some (pending r.limitbytes (q0 ++ log)).flatten := by
  have hstart := startThen_queued r fs acts hlock hrun hname hfile
  rw [hq] at hstart
  obtain ⟨i, fs1, done, queued, log, h1, h2, h3, hle, hqsz⟩ :=
    exec_rotating r hlock hname hopen acts r.lfile.index fs [] q0 []
      (by simp [pending]) hsize
  have hrun1 : startThen r fs acts =
      some (track (started r i) fs1 (pending r.limitbytes done).flatten (queued.map some)
        Status.alive false, log) := by
    rw [hstart]
    simpa [pending] using h1
  have hne : renameTarget (started r i) ≠ r.fileprefix := target_ne _ _
  have hpath : (started r i).lfile.filename = r.fileprefix := hname
  obtain ⟨id, fsd, hdrain⟩ := drain_rotating r hlock hname queued i fs1 done hle hqsz
  have hall : done ++ queued = q0 ++ log := by simpa using h2
  refine ⟨_, log, done, queued, hrun1, h3, hall, rfl, hlock, rfl, ?_, rfl, hle, hne, ?_, ?_,
    ?_, ?_, ?_⟩
  · simp only [track, fsSet_apply, hpath, if_true]
  · intro hnil
    rw [hnil]
    exact iteration_wait Env.ok (started r i) fs1 _ hopen
  · intro b rest hcons
    rw [hcons] at hrun1 ⊢
    have hb : r.limitbytes + b.length < 2 ^ 64 := hqsz b (by simp [hcons])
    have hrun2 : startThen r fs (acts ++ [Act.step]) =
        some (iteration Env.ok (track (started r i) fs1 (pending r.limitbytes done).flatten
          ((b :: rest).map some) Status.alive false), log) := by
      rw [startThen_append, hrun1]
      rfl
    refine ⟨hrun2, ?_⟩
    simp only [List.map_cons, renameTarget_track]
    by_cases hover : (pending r.limitbytes done).flatten.length + b.length > r.limitbytes
    · rw [iteration_rotate (started r i) fs1 _ b _ hlock hname hover (by omega)]
      refine ⟨rfl, hlock, rfl, ?_, ?_⟩
      · intro _
        refine ⟨?_, ?_, ?_, rfl, rfl, ?_, ?_⟩
        · simp only [track, fsSet_apply, hpath, hne, if_false, if_true]
        · rw [List.length_append]
          exact hover
        · simp only [track, fsSet_apply, hpath, if_true]
        · rw [pending_snoc, if_pos hover]
        · intro x hx1 hx2
          simp only [track, fsSet_apply, hpath, hx1, hx2, if_false]
      · intro hnot
        exact absurd hover hnot
    · rw [iteration_append (started r i) fs1 _ b _ hlock
        (by have : (started r i).limitbytes = r.limitbytes := rfl
            omega) (by omega)]
      refine ⟨rfl, hlock, rfl, ?_, ?_⟩
      · intro hyes
        exact absurd hyes hover
      · intro _
        refine ⟨?_, ?_, rfl, ?_, ?_⟩
        · simp only [track, fsSet_apply, hpath, if_true]
        · simp only [track, List.length_append]
        · rw [pending_snoc, if_neg hover]
        · intro x hx1
          simp only [track, fsSet_apply, hpath, hx1, if_false]
  · rw [hdrain]
    rfl
  · rw [hdrain]
    rfl
  · rw [hdrain, hall]
    have hpd : (started r id).lfile.filename = r.fileprefix := hname
    simp only [track, fsSet_apply, hpd, if_true]

/-- The records of `TestStartRotateOnce` written back to back, limit 10: when the worker
processes the third record the fourth is queued behind it; the rotation moves the first
three records to `logfile.0` and leaves the fourth queued, and after the next iteration
`logfile` holds the fourth record. -/
theorem rotation_at_crossings_witness :
    (sampleRotator.locker = false ∧ sampleRotator.running = false ∧
      sampleRotator.lfile.filename = sampleRotator.fileprefix ∧
      sampleRotator.internal.buf = ([] : List (List Byte)).map some ∧
      sampleRotator.internal.closed = false ∧
      (emptyFS sampleRotator.fileprefix = none ∨ emptyFS sampleRotator.fileprefix = some []) ∧
      ∀ x ∈ ([] : List (List Byte)) ++ writesOf backToBack,
        sampleRotator.limitbytes + x.length < 2 ^ 64) ∧
    (∃ (s : State) (log done queued : List (List Byte)),
      startThen sampleRotator emptyFS backToBack = some (s, log) ∧
      log.Sublist (writesOf backToBack) ∧ done ++ queued = ([] : List (List Byte)) ++ log ∧
      s.wk.status = Status.alive ∧ s.r.locker = false ∧
      s.r.internal.buf = queued.map some ∧
      s.fs sampleRotator.fileprefix = some (pending sampleRotator.limitbytes done).flatten ∧
      s.r.lfile.size = (pending sampleRotator.limitbytes done).flatten.length ∧
      s.r.lfile.size ≤ sampleRotator.limitbytes ∧
      renameTarget s.r ≠ sampleRotator.fileprefix ∧
      (queued = [] → iteration Env.ok s = s) ∧
      (∀ (b : List Byte) (rest : List (List Byte)), queued = b :: rest →
        startThen sampleRotator emptyFS (backToBack ++ [Act.step]) = some (iteration Env.ok s, log) ∧
        (iteration Env.ok s).wk.status = Status.alive ∧
        (iteration Env.ok s).r.locker = false ∧
        (iteration Env.ok s).r.internal.buf = rest.map some ∧
        (s.r.lfile.size + b.length > sampleRotator.limitbytes →
          (iteration Env.ok s).fs (renameTarget s.r) =
            some ((pending sampleRotator.limitbytes done).flatten ++ b) ∧
          sampleRotator.limitbytes < ((pending sampleRotator.limitbytes done).flatten ++ b).length ∧
          (iteration Env.ok s).fs sampleRotator.fileprefix = some [] ∧
          (iteration Env.ok s).r.lfile.size = 0 ∧
          (iteration Env.ok s).r.lfile.index =
            advanceIndex s.r.lfile.index s.r.maxlogfiles ∧
          pending sampleRotator.limitbytes (done ++ [b]) = [] ∧
          ∀ x, x ≠ sampleRotator.fileprefix → x ≠ renameTarget s.r →
            (iteration Env.ok s).fs x = s.fs x) ∧
        (¬ s.r.lfile.size + b.length > sampleRotator.limitbytes →
          (iteration Env.ok s).fs sampleRotator.fileprefix =
            some ((pending sampleRotator.limitbytes done).flatten ++ b) ∧
          (iteration Env.ok s).r.lfile.size = s.r.lfile.size + b.length ∧
          (iteration Env.ok s).r.lfile.index = s.r.lfile.index ∧
          pending sampleRotator.limitbytes (done ++ [b]) = pending sampleRotator.limitbytes done ++ [b] ∧
          ∀ x, x ≠ sampleRotator.fileprefix → (iteration Env.ok s).fs x = s.fs x)) ∧
      (drain Env.ok s).wk.status = Status.alive ∧
      (drain Env.ok s).r.internal.buf = [] ∧
      (drain Env.ok s).fs sampleRotator.fileprefix = some (pending sampleRotator.limitbytes (([] : List (List Byte)) ++ log)).flatten) ∧
    ((startThen sampleRotator emptyFS backToBack).map
        (fun x => (x.1.fs "logfile", x.1.fs "logfile.0", x.1.r.internal.buf,
          x.1.r.lfile.index, x.2)) =
      some (some (bytesOf "som1om789"), none,
        [some (bytesOf "1om123"), some (bytesOf "2om123")], 0, rotateOnceRecords) ∧
     (startThen sampleRotator emptyFS (backToBack ++ [Act.step])).map
        (fun x => (x.1.fs "logfile", x.1.fs "logfile.0", x.1.r.internal.buf,
          x.1.r.lfile.index, x.2)) =
      some (some [], some (bytesOf "som1om7891om123"), [some (bytesOf "2om123")], 1,
        rotateOnceRecords) ∧
     (startThen sampleRotator emptyFS (backToBack ++ [Act.step, Act.step])).map
        (fun x => (x.1.fs "logfile", x.1.fs "logfile.0", x.1.fs "logfile.1",
          x.1.r.internal.buf, x.1.r.lfile.index, x.2)) =
      some (some (bytesOf "2om123"), some (bytesOf "som1om7891om123"), none, [], 1,
        rotateOnceRecords)) :=
  ⟨by decide,
    rotation_at_crossings sampleRotator emptyFS [] backToBack (by decide) (by decide)
      (by decide) (by decide) (by decide) (by decide) (by decide),
    by refine ⟨?_, ?_, ?_⟩ <;> rfl⟩

end Logrotate
